import Mathlib

/-!
# Verification of `calculate-cell-boundary`

A shallow embedding of the canonical grid/region-merge pipeline of the
`calculate-cell-boundary` repository (entry point `calculateCellBoundaries`),
together with theorems settling the specification claims.

Conventions of the embedding:

* JavaScript numbers are modelled by `JsNum`: exact rationals extended with
  `+Infinity`, `-Infinity` and `NaN`, with the arithmetic, comparison,
  `Math.min`/`Math.max` and `Number.prototype.toFixed` semantics of JS on
  those values.  All inputs exercised by the claims are exactly
  representable, and the pipeline compares every quantity against fixed
  tolerances, so exact rational arithmetic is the faithful reading.
* The one deliberate representation change: `distanceToCell` stores the
  *square* of the Euclidean distance (the source takes `Math.sqrt`).  Every
  use of these distances downstream is a comparison (`Math.min`, sort
  comparators, `<`), and squaring is strictly monotone on non-negative
  values, so the behaviour of the pipeline is unchanged.  No claim mentions
  the numeric value of a distance.
* `Array.prototype.sort` (stable in the engines the repository targets) is
  modelled by a stable insertion sort driven by the sign of the JS
  comparator; `Set`/`Map` insertion-order semantics are modelled by
  dedup-preserving list folds.
-/

/-- A JavaScript number: an exact rational, an infinity, or `NaN`. -/
inductive JsNum where
  | nan : JsNum
  | posInf : JsNum
  | negInf : JsNum
  | fin (q : ℚ) : JsNum
deriving DecidableEq, Repr

namespace JsNum

/-- Shorthand embedding of a rational as a JS number. -/
def jq (q : ℚ) : JsNum := JsNum.fin q

/-- Kernel-reducible rational addition (the library's `Rat.add` is
`@[irreducible]`; `mkRat` normalizes, so values stay in reduced form and
propositional equality remains value equality). -/
def qadd (a b : ℚ) : ℚ := mkRat (a.num * b.den + b.num * a.den) (a.den * b.den)

/-- Kernel-reducible rational negation. -/
def qneg (a : ℚ) : ℚ := mkRat (-a.num) a.den

/-- Kernel-reducible rational multiplication. -/
def qmul (a b : ℚ) : ℚ := mkRat (a.num * b.num) (a.den * b.den)

/-- Kernel-reducible rational division (`a / 0 = 0`, as in `Rat.div`). -/
def qdiv (a b : ℚ) : ℚ :=
  if b.num < 0 then mkRat (-(a.num * b.den)) (a.den * b.num.natAbs)
  else mkRat (a.num * b.den) (a.den * b.num.natAbs)

/-- Kernel-reducible rational absolute value. -/
def qabs (a : ℚ) : ℚ := if a.num < 0 then qneg a else a

/-- Kernel-reducible `round` (nearest integer, ties toward `+∞`, matching
both Mathlib's `round` and the tie rule of ECMAScript `toFixed`):
`⌊x + 1/2⌋` computed on the numerator and denominator. -/
def qround (x : ℚ) : ℤ := Int.fdiv (2 * x.num + x.den) (2 * x.den)


/-- JS unary minus. -/
def jsNeg : JsNum → JsNum
  | nan => nan
  | posInf => negInf
  | negInf => posInf
  | fin q => fin (qneg q)

/-- JS addition (`+`), with IEEE special-value rules. -/
def jsAdd : JsNum → JsNum → JsNum
  | nan, _ => nan
  | _, nan => nan
  | posInf, negInf => nan
  | posInf, _ => posInf
  | negInf, posInf => nan
  | negInf, _ => negInf
  | fin _, posInf => posInf
  | fin _, negInf => negInf
  | fin a, fin b => fin (qadd a b)

/-- JS subtraction (`-`). -/
def jsSub (a b : JsNum) : JsNum := jsAdd a (jsNeg b)

/-- JS multiplication (`*`), with IEEE special-value rules
(`±∞ * 0 = NaN`; signs otherwise as usual). -/
def jsMul : JsNum → JsNum → JsNum
  | nan, _ => nan
  | _, nan => nan
  | posInf, posInf => posInf
  | posInf, negInf => negInf
  | negInf, posInf => negInf
  | negInf, negInf => posInf
  | posInf, fin b => if b = 0 then nan else if 0 < b then posInf else negInf
  | negInf, fin b => if b = 0 then nan else if 0 < b then negInf else posInf
  | fin a, posInf => if a = 0 then nan else if 0 < a then posInf else negInf
  | fin a, negInf => if a = 0 then nan else if 0 < a then negInf else posInf
  | fin a, fin b => fin (qmul a b)

/-- JS division (`/`), with IEEE special-value rules
(`x / 0 = ±∞` for `x ≠ 0`, `0 / 0 = NaN`, `∞ / ∞ = NaN`). -/
def jsDiv : JsNum → JsNum → JsNum
  | nan, _ => nan
  | _, nan => nan
  | posInf, posInf => nan
  | posInf, negInf => nan
  | negInf, posInf => nan
  | negInf, negInf => nan
  | posInf, fin b => if 0 ≤ b then posInf else negInf
  | negInf, fin b => if 0 ≤ b then negInf else posInf
  | fin _, posInf => fin 0
  | fin _, negInf => fin 0
  | fin a, fin b =>
      if b = 0 then (if a = 0 then nan else if 0 < a then posInf else negInf)
      else fin (qdiv a b)

/-- JS strict comparison `<` as a boolean (false whenever `NaN` is involved). -/
def jsLtb : JsNum → JsNum → Bool
  | nan, _ => false
  | _, nan => false
  | posInf, _ => false
  | negInf, negInf => false
  | negInf, _ => true
  | fin _, posInf => true
  | fin _, negInf => false
  | fin a, fin b => decide (a < b)

/-- JS comparison `<=` as a boolean (false whenever `NaN` is involved). -/
def jsLeb : JsNum → JsNum → Bool
  | nan, _ => false
  | _, nan => false
  | negInf, _ => true
  | posInf, posInf => true
  | posInf, _ => false
  | fin _, posInf => true
  | fin _, negInf => false
  | fin a, fin b => decide (a ≤ b)

/-- JS strict equality `===` on numbers (`NaN === NaN` is false). -/
def jsEqb : JsNum → JsNum → Bool
  | nan, _ => false
  | _, nan => false
  | posInf, posInf => true
  | negInf, negInf => true
  | fin a, fin b => decide (a = b)
  | _, _ => false

/-- `Math.abs`. -/
def jsAbs : JsNum → JsNum
  | nan => nan
  | posInf => posInf
  | negInf => posInf
  | fin q => fin (qabs q)

/-- `Math.min` of two numbers (`NaN` wins). -/
def jsMin (a b : JsNum) : JsNum :=
  if a = nan ∨ b = nan then nan else if jsLeb a b then a else b

/-- `Math.max` of two numbers (`NaN` wins). -/
def jsMax (a b : JsNum) : JsNum :=
  if a = nan ∨ b = nan then nan else if jsLeb a b then b else a

/-- `Math.min(...xs)`: fold of `jsMin` starting from `Infinity`
(`Math.min()` of no arguments is `Infinity`). -/
def jsMinList (l : List JsNum) : JsNum := l.foldl jsMin posInf

/-- `parseFloat(x.toFixed(4))`: round to 4 decimal places, ties away from
zero upward (the ECMAScript `toFixed` picks the larger candidate on a tie);
infinities and `NaN` round-trip through their string forms unchanged. -/
def round4 : JsNum → JsNum
  | nan => nan
  | posInf => posInf
  | negInf => negInf
  | fin q => fin (mkRat (qround (qmul q 10000)) 10000)

end JsNum

open JsNum

/-- Stable insertion of `x` into `l`: `x` is placed before the first element
`y` with `lt x y`, hence after every earlier element that compares equal.
This is the order produced by the (stable) `Array.prototype.sort`. -/
def insertSorted (lt : α → α → Bool) (x : α) : List α → List α
  | [] => [x]
  | y :: l => if lt x y then x :: y :: l else y :: insertSorted lt x l

/-- Stable sort by the strict-before predicate `lt` (insertion sort).  For a
JS numeric comparator `c`, `lt a b` is `c(a,b) < 0`. -/
def jsSortBy (lt : α → α → Bool) (l : List α) : List α :=
  l.foldl (fun acc x => insertSorted lt x acc) []

/-- `Set.add` semantics: append iff not already present (SameValueZero
equality; on `JsNum` structural equality matches it, `NaN` included). -/
def jsSetAdd [DecidableEq α] (l : List α) (x : α) : List α :=
  if x ∈ l then l else l ++ [x]

/-- Identifier of a rectangle flowing through the pipeline: the source uses
the strings `cell-${i}`, `contain-${cellId}` and `gridRect-${i}`. -/
inductive CellId where
  | cell (n : ℕ) : CellId
  | contain (c : CellId) : CellId
  | gridRect (n : ℕ) : CellId
deriving DecidableEq, Repr

/-- `Point` of `internalTypes`. -/
structure Point where
  x : JsNum
  y : JsNum
deriving DecidableEq, Repr

/-- `CellContent` of `internalTypes` (a positioned rectangle). -/
structure CellContent where
  cellId : CellId
  x : JsNum
  y : JsNum
  width : JsNum
  height : JsNum
deriving DecidableEq, Repr

/-- Orientation tag of a midline. -/
inductive MidlineType where
  | horizontal : MidlineType
  | vertical : MidlineType
deriving DecidableEq, Repr

/-- `Midline` of `internalTypes`. -/
structure Midline where
  id : ℕ
  start : Point
  end_ : Point
  cellIds : CellId × CellId
  type : MidlineType
deriving DecidableEq, Repr

/-- `Line` of `internalTypes`; `fromCellIds` and `distanceToAnyCell` are
optional in the source. -/
structure Line where
  id : ℕ
  start : Point
  end_ : Point
  fromCellIds : Option (CellId × CellId) := none
  distanceToAnyCell : Option JsNum := none
deriving DecidableEq, Repr

/-- `Intersection` of `internalTypes`. -/
structure Intersection where
  point : Point
  midlineIds : ℕ × ℕ
deriving DecidableEq, Repr

/-- `utils.ts`: `POINT_COMPARISON_TOLERANCE = 0.001`. -/
def POINT_COMPARISON_TOLERANCE : JsNum := jq (mkRat 1 1000)

/-- `utils.ts`: `pointsEqual` at the default tolerance. -/
def pointsEqual (p1 p2 : Point) : Bool :=
  jsLtb (jsAbs (jsSub p1.x p2.x)) POINT_COMPARISON_TOLERANCE &&
  jsLtb (jsAbs (jsSub p1.y p2.y)) POINT_COMPARISON_TOLERANCE

/-- `utils.ts`: `lineIntersection` — parametric intersection of two
midlines, `null` when the determinant magnitude is below `0.0001` or the
parameters leave `[0,1]`. -/
def lineIntersection (line1 line2 : Midline) : Option Point :=
  let x1 := line1.start.x; let y1 := line1.start.y
  let x2 := line1.end_.x; let y2 := line1.end_.y
  let x3 := line2.start.x; let y3 := line2.start.y
  let x4 := line2.end_.x; let y4 := line2.end_.y
  let denom := jsSub (jsMul (jsSub x1 x2) (jsSub y3 y4))
                     (jsMul (jsSub y1 y2) (jsSub x3 x4))
  if jsLtb (jsAbs denom) (jq (mkRat 1 10000)) then none
  else
    let t := jsDiv (jsSub (jsMul (jsSub x1 x3) (jsSub y3 y4))
                          (jsMul (jsSub y1 y3) (jsSub x3 x4))) denom
    let u := jsDiv (jsNeg (jsSub (jsMul (jsSub x1 x2) (jsSub y1 y3))
                                 (jsMul (jsSub y1 y2) (jsSub x1 x3)))) denom
    if jsLeb (jq 0) t && jsLeb t (jq 1) && jsLeb (jq 0) u && jsLeb u (jq 1) then
      some ⟨jsAdd x1 (jsMul t (jsSub x2 x1)), jsAdd y1 (jsMul t (jsSub y2 y1))⟩
    else none

/-- `utils.ts`: `lineSegmentIntersection` — boolean version of the same
parametric test for two plain segments. -/
def lineSegmentIntersection (p1 p2 p3 p4 : Point) : Bool :=
  let denom := jsSub (jsMul (jsSub p1.x p2.x) (jsSub p3.y p4.y))
                     (jsMul (jsSub p1.y p2.y) (jsSub p3.x p4.x))
  if jsLtb (jsAbs denom) (jq (mkRat 1 10000)) then false
  else
    let t := jsDiv (jsSub (jsMul (jsSub p1.x p3.x) (jsSub p3.y p4.y))
                          (jsMul (jsSub p1.y p3.y) (jsSub p3.x p4.x))) denom
    let u := jsDiv (jsNeg (jsSub (jsMul (jsSub p1.x p2.x) (jsSub p1.y p3.y))
                                 (jsMul (jsSub p1.y p2.y) (jsSub p1.x p3.x)))) denom
    jsLeb (jq 0) t && jsLeb t (jq 1) && jsLeb (jq 0) u && jsLeb u (jq 1)

/-- `utils.ts`: `lineIntersectsRectangle` — an endpoint inside the closed
rectangle, or the segment crossing one of the four edges. -/
def lineIntersectsRectangle (lineStart lineEnd : Point) (rect : CellContent) : Bool :=
  let x := rect.x; let y := rect.y
  let width := rect.width; let height := rect.height
  let startInside :=
    jsLeb x lineStart.x && jsLeb lineStart.x (jsAdd x width) &&
    jsLeb y lineStart.y && jsLeb lineStart.y (jsAdd y height)
  let endInside :=
    jsLeb x lineEnd.x && jsLeb lineEnd.x (jsAdd x width) &&
    jsLeb y lineEnd.y && jsLeb lineEnd.y (jsAdd y height)
  if startInside || endInside then true
  else
    let rectEdges : List (Point × Point) :=
      [(⟨x, y⟩, ⟨jsAdd x width, y⟩),
       (⟨jsAdd x width, y⟩, ⟨jsAdd x width, jsAdd y height⟩),
       (⟨jsAdd x width, jsAdd y height⟩, ⟨x, jsAdd y height⟩),
       (⟨x, jsAdd y height⟩, ⟨x, y⟩)]
    rectEdges.any fun e => lineSegmentIntersection lineStart lineEnd e.1 e.2

/-- `utils.ts`: `distanceToCell` — distance from a point to the closed
rectangle via clamping.  Modelled as the *square* of the source's Euclidean
distance (the source applies `Math.sqrt`); see the header note: squaring is
strictly monotone and the pipeline only ever compares these values. -/
def distanceToCell (point : Point) (cell : CellContent) : JsNum :=
  let closestX := jsMax cell.x (jsMin point.x (jsAdd cell.x cell.width))
  let closestY := jsMax cell.y (jsMin point.y (jsAdd cell.y cell.height))
  let dx := jsSub point.x closestX
  let dy := jsSub point.y closestY
  jsAdd (jsMul dx dx) (jsMul dy dy)

/-- `utils.ts`: `distanceFromSegmentToCell` — minimum of `distanceToCell`
over 11 evenly spaced sample points (`numSamples = 10`). -/
def distanceFromSegmentToCell (start end_ : Point) (cell : CellContent) : JsNum :=
  let samples := (List.range 11).map fun i =>
    let t := jq (mkRat i 10)
    Point.mk (jsAdd start.x (jsMul t (jsSub end_.x start.x)))
             (jsAdd start.y (jsMul t (jsSub end_.y start.y)))
  samples.foldl (fun minDistance p => jsMin minDistance (distanceToCell p cell)) posInf

/-- `utils.ts`: `segmentDistanceToAnyCell` — `Math.min` over all cells of
`distanceFromSegmentToCell`. -/
def segmentDistanceToAnyCell (start end_ : Point) (cells : List CellContent) : JsNum :=
  jsMinList (cells.map fun cell => distanceFromSegmentToCell start end_ cell)

/-- `utils.ts`: `getSegmentKey` — the canonical dedup key of a segment: both
endpoints rounded through `toFixed(4)`, smaller (x, then y) endpoint first.
Modelled as the quadruple of rounded numbers; structural equality of the
quadruple coincides with equality of the source's key strings. -/
def getSegmentKey (p1 p2 : Point) : JsNum × JsNum × JsNum × JsNum :=
  let p1x := round4 p1.x; let p1y := round4 p1.y
  let p2x := round4 p2.x; let p2y := round4 p2.y
  if jsLtb p1x p2x || (jsEqb p1x p2x && jsLtb p1y p2y) then
    (p1x, p1y, p2x, p2y)
  else
    (p2x, p2y, p1x, p1y)

/-- `rectUtils.ts`: `edgeToEdgeDistance` — Manhattan distance of the axis
separations of two rectangles (0 on each axis where they touch or overlap). -/
def edgeToEdgeDistance (a b : CellContent) : JsNum :=
  let dx := jsMax (jsMax (jsSub a.x (jsAdd b.x b.width)) (jsSub b.x (jsAdd a.x a.width))) (jq 0)
  let dy := jsMax (jsMax (jsSub a.y (jsAdd b.y b.height)) (jsSub b.y (jsAdd a.y a.height))) (jq 0)
  jsAdd dx dy

/-- `rectUtils.ts`: `areAdjacent` at the default tolerance `0.5` — facing
vertical or horizontal edges within tolerance, with overlap (not merely a
corner touch) on the other axis. -/
def areAdjacent (a b : CellContent) : Bool :=
  let tol := jq (mkRat 1 2)
  let shareVertical :=
    (jsLtb (jsAbs (jsSub (jsAdd a.x a.width) b.x)) tol ||
     jsLtb (jsAbs (jsSub (jsAdd b.x b.width) a.x)) tol) &&
    !(jsLeb (jsAdd a.y a.height) b.y || jsLeb (jsAdd b.y b.height) a.y)
  let shareHorizontal :=
    (jsLtb (jsAbs (jsSub (jsAdd a.y a.height) b.y)) tol ||
     jsLtb (jsAbs (jsSub (jsAdd b.y b.height) a.y)) tol) &&
    !(jsLeb (jsAdd a.x a.width) b.x || jsLeb (jsAdd b.x b.width) a.x)
  shareVertical || shareHorizontal

/-- `rectUtils.ts`: `rectsOverlap` — proper (open-interior) overlap test. -/
def rectsOverlap (a b : CellContent) : Bool :=
  jsLtb a.x (jsAdd b.x b.width) && jsLtb b.x (jsAdd a.x a.width) &&
  jsLtb a.y (jsAdd b.y b.height) && jsLtb b.y (jsAdd a.y a.height)

/-- `rectUtils.ts`: `offsetPoint`. -/
def offsetPoint (p : Point) (offsetX offsetY : JsNum) : Point :=
  ⟨jsAdd p.x offsetX, jsAdd p.y offsetY⟩

/-- `rectUtils.ts`: `offsetLine`. -/
def offsetLine (l : Line) (offsetX offsetY : JsNum) : Line :=
  { l with start := offsetPoint l.start offsetX offsetY
           end_ := offsetPoint l.end_ offsetX offsetY }

/-- `rectUtils.ts`: `offsetRect`. -/
def offsetRect (r : CellContent) (offsetX offsetY : JsNum) : CellContent :=
  { r with x := jsAdd r.x offsetX, y := jsAdd r.y offsetY }

/-- Bounding box record returned by the bounds computer. -/
structure Bounds where
  minX : JsNum
  minY : JsNum
  maxX : JsNum
  maxY : JsNum
deriving DecidableEq, Repr

/-- `computeBoundsFromCellContents.ts`: fold of `Math.min`/`Math.max` over
the rectangle extents, starting from `±Infinity`. -/
def computeBoundsFromCellContents (cellContents : List Bounds) : Bounds :=
  cellContents.foldl
    (fun acc cell =>
      ⟨jsMin acc.minX cell.minX, jsMin acc.minY cell.minY,
       jsMax acc.maxX cell.maxX, jsMax acc.maxY cell.maxY⟩)
    ⟨posInf, posInf, negInf, negInf⟩

/-- Loop order of a JS `for (i) for (j > i)` double loop: the ordered pairs
`(l[i], l[j])` with `i < j`, outer index first. -/
def orderedPairs : List α → List (α × α)
  | [] => []
  | x :: xs => (xs.map fun y => (x, y)) ++ orderedPairs xs

/-- Consecutive pairs `(l[i], l[i+1])` of a list. -/
def consecutivePairs (l : List α) : List (α × α) := l.zip l.tail

/-- `computeMidlines.ts`: for every ordered pair of cells, emit a vertical
midline at the horizontal-gap midpoint and/or a horizontal midline at the
vertical-gap midpoint, spanning the full container; `midlineId` counts
emitted midlines in loop order. -/
def midlinePairStep (containerWidth containerHeight : JsNum)
    (st : ℕ × List Midline) (pr : CellContent × CellContent) : ℕ × List Midline :=
  let cell1 := pr.1
  let cell2 := pr.2
  let cell1Right := jsAdd cell1.x cell1.width
  let cell2Right := jsAdd cell2.x cell2.width
  let cell1Bottom := jsAdd cell1.y cell1.height
  let cell2Bottom := jsAdd cell2.y cell2.height
  let hasHorizontalGap := jsLtb cell1Right cell2.x || jsLtb cell2Right cell1.x
  let st :=
    if hasHorizontalGap then
      let midX :=
        if jsLtb cell1Right cell2.x then jsDiv (jsAdd cell1Right cell2.x) (jq 2)
        else jsDiv (jsAdd cell2Right cell1.x) (jq 2)
      (st.1 + 1, st.2 ++ [Midline.mk st.1 ⟨midX, jq 0⟩ ⟨midX, containerHeight⟩
        (cell1.cellId, cell2.cellId) MidlineType.vertical])
    else st
  let hasVerticalGap := jsLtb cell1Bottom cell2.y || jsLtb cell2Bottom cell1.y
  if hasVerticalGap then
    let midY :=
      if jsLtb cell1Bottom cell2.y then jsDiv (jsAdd cell1Bottom cell2.y) (jq 2)
      else jsDiv (jsAdd cell2Bottom cell1.y) (jq 2)
    (st.1 + 1, st.2 ++ [Midline.mk st.1 ⟨jq 0, midY⟩ ⟨containerWidth, midY⟩
      (cell1.cellId, cell2.cellId) MidlineType.horizontal])
  else st

/-- `computeMidlines.ts` (continued): the fold of `midlinePairStep` over the
ordered pairs, starting from id 0 and an empty list. -/
def computeMidlines (cellContents : List CellContent)
    (containerWidth containerHeight : JsNum) : List Midline :=
  ((orderedPairs cellContents).foldl
    (midlinePairStep containerWidth containerHeight) (0, [])).2

/-- `computeIntersections.ts`: all-pairs `lineIntersection` over midlines. -/
def computeIntersections (midlines : List Midline) : List Intersection :=
  (orderedPairs midlines).foldl
    (fun acc pr =>
      match lineIntersection pr.1 pr.2 with
      | some p => acc ++ [Intersection.mk p (pr.1.id, pr.2.id)]
      | none => acc)
    []

/-- `computeSegments.ts`: slice each midline at its intersection points
(sorted along the midline's own axis) into consecutive sub-segments, each
annotated with its distance to the nearest cell. -/
def computeSegments (midlines : List Midline) (intersections : List Intersection)
    (cellContents : List CellContent) : List Line :=
  (midlines.foldl
    (fun (st : ℕ × List Line) midline =>
      let midlineIntersections :=
        jsSortBy
          (fun a b =>
            match midline.type with
            | MidlineType.vertical => jsLtb (jsSub a.y b.y) (jq 0)
            | MidlineType.horizontal => jsLtb (jsSub a.x b.x) (jq 0))
          (((intersections.filter fun int =>
              int.midlineIds.1 == midline.id || int.midlineIds.2 == midline.id).map
            Intersection.point))
      let allPoints := [midline.start] ++ midlineIntersections ++ [midline.end_]
      (consecutivePairs allPoints).foldl
        (fun st2 pq =>
          (st2.1 + 1, st2.2 ++ [Line.mk st2.1 pq.1 pq.2 (some midline.cellIds)
            (some (segmentDistanceToAnyCell pq.1 pq.2 cellContents))]))
        st)
    (0, [])).2

/-- Result record of `buildGrid`. -/
structure GridResult where
  validSegments : List Line
  cellContainingRects : List CellContent
  gridRects : List CellContent
deriving DecidableEq, Repr

/-- `buildGrid.ts` (grid-cell double loop, inner body): the candidate cell
of one consecutive x-pair and y-pair, skipped when degenerate or when it
overlaps an input cell; the counter counts built candidates. -/
def gridInnerStep (cellContents : List CellContent) (xp : JsNum × JsNum)
    (st2 : ℕ × List CellContent) (yp : JsNum × JsNum) : ℕ × List CellContent :=
  if jsLeb (jsSub yp.2 yp.1) (jq 0) then st2
  else
    let candidate := CellContent.mk (CellId.gridRect st2.1) xp.1 yp.1
      (jsSub xp.2 xp.1) (jsSub yp.2 yp.1)
    if cellContents.any fun c => rectsOverlap candidate c then (st2.1 + 1, st2.2)
    else (st2.1 + 1, st2.2 ++ [candidate])

/-- `buildGrid.ts` (grid-cell double loop, outer body): one consecutive
x-pair, iterating the inner loop over the consecutive y-pairs. -/
def gridOuterStep (cellContents : List CellContent) (yps : List (JsNum × JsNum))
    (st : ℕ × List CellContent) (xp : JsNum × JsNum) : ℕ × List CellContent :=
  if jsLeb (jsSub xp.2 xp.1) (jq 0) then st
  else yps.foldl (gridInnerStep cellContents xp) st

/-- `buildGrid.ts` (containing-rect append): append a containing rect
unless a rect with the same `x,y,width,height` key is already present. -/
def appendContainingStep (acc : List CellContent) (r : CellContent) : List CellContent :=
  if acc.any (fun g => g.x == r.x && g.y == r.y && g.width == r.width && g.height == r.height)
  then acc
  else acc ++ [r]

/-- `buildGrid.ts`: drop segments that intersect a cell, collect the grid
coordinates from the surviving segments plus the container edges, build the
grid cells that do not overlap any input cell, build each cell's containing
rect, and append containing rects not already present (by their
`x,y,width,height` key) to the grid-rect list. -/
def buildGrid (allSegments : List Line) (cellContents : List CellContent)
    (containerWidth containerHeight : JsNum) : GridResult :=
  let validSegments := allSegments.filter fun segment =>
    !(cellContents.any fun cell => lineIntersectsRectangle segment.start segment.end_ cell)
  let sets := validSegments.foldl
    (fun (st : List JsNum × List JsNum) seg =>
      let isVertical := jsLtb (jsAbs (jsSub seg.start.x seg.end_.x)) (jq (mkRat 1 1000))
      if isVertical then (jsSetAdd st.1 seg.start.x, st.2)
      else (st.1, jsSetAdd st.2 seg.start.y))
    (jsSetAdd (jsSetAdd [] (jq 0)) containerWidth,
     jsSetAdd (jsSetAdd [] (jq 0)) containerHeight)
  let xs := jsSortBy (fun a b => jsLtb (jsSub a b) (jq 0)) sets.1
  let ys := jsSortBy (fun a b => jsLtb (jsSub a b) (jq 0)) sets.2
  let cellContainingRects := cellContents.map fun cell =>
    let minXGrid := xs.headD nan
    let maxXGrid := xs.getLastD nan
    let minYGrid := ys.headD nan
    let maxYGrid := ys.getLastD nan
    let left := ((xs.filter fun v => jsLeb v cell.x).getLast?).getD minXGrid
    let right := (xs.find? fun v => jsLeb (jsAdd cell.x cell.width) v).getD maxXGrid
    let top := ((ys.filter fun v => jsLeb v cell.y).getLast?).getD minYGrid
    let bot := (ys.find? fun v => jsLeb (jsAdd cell.y cell.height) v).getD maxYGrid
    CellContent.mk (CellId.contain cell.cellId) left top
      (jsMax (jq 0) (jsSub right left)) (jsMax (jq 0) (jsSub bot top))
  let gridRects := ((consecutivePairs xs).foldl
    (gridOuterStep cellContents (consecutivePairs ys)) (0, [])).2
  let gridRects := cellContainingRects.foldl appendContainingStep gridRects
  GridResult.mk validSegments cellContainingRects gridRects

/-- `mergeGrid.ts`: `WorkRect` — a grid rect with its mutable merge state. -/
structure WorkRect extends CellContent where
  merged : Bool
  groupId : Option ℕ
  minBoundingSegmentDistance : JsNum
deriving DecidableEq, Repr

/-- Update the first element satisfying `p` (the JS `Array.find` +
in-place-mutation pattern); no-op when none matches. -/
def updateFirst (p : α → Bool) (f : α → α) : List α → List α
  | [] => []
  | x :: xs => if p x then f x :: xs else x :: updateFirst p f xs

/-- `mergeGrid.ts`: the initial work rect of a grid rect — unmerged,
ungrouped, priority the minimum `distanceToAnyCell` over the valid segments
lying on one of its four edges. -/
def initWorkRect (validSegments : List Line) (r : CellContent) : WorkRect :=
  let TOL := POINT_COMPARISON_TOLERANCE
  let minDistanceForRect := validSegments.foldl
    (fun minDistanceForRect segment =>
      let sx1 := jsMin segment.start.x segment.end_.x
      let sx2 := jsMax segment.start.x segment.end_.x
      let sy1 := jsMin segment.start.y segment.end_.y
      let sy2 := jsMax segment.start.y segment.end_.y
      let segmentIsHorizontal := jsLtb (jsAbs (jsSub segment.start.y segment.end_.y)) TOL
      let segmentIsVertical := jsLtb (jsAbs (jsSub segment.start.x segment.end_.x)) TOL
      let onBoundary :=
        if segmentIsHorizontal then
          (jsLtb (jsAbs (jsSub sy1 r.y)) TOL ||
           jsLtb (jsAbs (jsSub sy1 (jsAdd r.y r.height))) TOL) &&
          jsLtb sx1 (jsSub (jsAdd r.x r.width) TOL) &&
          jsLtb (jsAdd r.x TOL) sx2 &&
          jsLtb (jsAdd (jsMax sx1 r.x) TOL) (jsMin sx2 (jsAdd r.x r.width))
        else if segmentIsVertical then
          (jsLtb (jsAbs (jsSub sx1 r.x)) TOL ||
           jsLtb (jsAbs (jsSub sx1 (jsAdd r.x r.width))) TOL) &&
          jsLtb sy1 (jsSub (jsAdd r.y r.height) TOL) &&
          jsLtb (jsAdd r.y TOL) sy2 &&
          jsLtb (jsAdd (jsMax sy1 r.y) TOL) (jsMin sy2 (jsAdd r.y r.height))
        else false
      if onBoundary && segment.distanceToAnyCell.isSome then
        jsMin minDistanceForRect (segment.distanceToAnyCell.getD nan)
      else minDistanceForRect)
    posInf
  WorkRect.mk r false none minDistanceForRect

/-- Placeholder for a JS out-of-range array access; indices produced by the
pipeline are always in range (`groupId` values are indices into
`cellContainingRects`, whose length equals that of `cellContents`). -/
def dummyCell : CellContent := CellContent.mk (CellId.cell 0) nan nan nan nan

/-- `mergeGrid.ts`: the multi-neighbour group choice — fold over the
neighbours keeping the group whose original cell has the smallest
`edgeToEdgeDistance` to the rect being merged, ties resolved to the smaller
numeric group id. -/
def pickBestStep (cellContents : List CellContent) (currentRectState : WorkRect)
    (st : Option ℕ × JsNum) (neighbour : WorkRect) : Option ℕ × JsNum :=
  match neighbour.groupId with
  | none => st
  | some g =>
    let originalCellForGroup := cellContents.getD g dummyCell
    let distance := edgeToEdgeDistance currentRectState.toCellContent originalCellForGroup
    if jsLtb distance st.2 then (some g, distance)
    else if jsEqb distance st.2 then
      match st.1 with
      | none => (some g, st.2)
      | some b => (some (if g < b then g else b), st.2)
    else st

/-- `mergeGrid.ts` (multi-neighbour choice, continued): the fold of
`pickBestStep` over the neighbours, starting from no best group and
infinite distance. -/
def pickBestGroupId (cellContents : List CellContent) (currentRectState : WorkRect)
    (neighbours : List WorkRect) : Option ℕ :=
  (neighbours.foldl (pickBestStep cellContents currentRectState) (none, posInf)).1

/-- `mergeGrid.ts` (group choice of one merge): inherit the single
neighbour's group id, or run the multi-neighbour best-group fold. -/
def chooseGroupId (cellContents : List CellContent) (currentRectState : WorkRect)
    (neighbours : List WorkRect) : Option ℕ :=
  match neighbours with
  | [n] => n.groupId
  | _ => pickBestGroupId cellContents currentRectState neighbours

/-- State of one pass of the region-growth loop. -/
structure PassState where
  workRects : List WorkRect
  remainingAfterPass : List WorkRect
  keepProcessing : Bool
deriving DecidableEq, Repr

/-- `mergeGrid.ts`: processing of one rect inside a pass — look the rect up
in the current state, skip it if gone or already merged, defer it when it
has no merged adjacent neighbour, otherwise merge it into the inherited
(single neighbour) or best (multiple neighbours) group. -/
def passStep (cellContents : List CellContent) (st : PassState)
    (rectToConsider : WorkRect) : PassState :=
  match st.workRects.find? (fun wr => wr.cellId == rectToConsider.cellId) with
  | none => st
  | some currentRectState =>
    if currentRectState.merged then st
    else
      let neighbours := st.workRects.filter fun other =>
        other.merged && areAdjacent currentRectState.toCellContent other.toCellContent
      if neighbours.isEmpty then
        { st with remainingAfterPass := st.remainingAfterPass ++ [rectToConsider] }
      else
        let newGroupId := chooseGroupId cellContents currentRectState neighbours
        { st with
          workRects := updateFirst (fun wr => wr.cellId == rectToConsider.cellId)
            (fun wr => { wr with merged := true, groupId := newGroupId }) st.workRects
          keepProcessing := true }

/-- One full pass over the unmerged processing list. -/
def runPass (cellContents : List CellContent) (workRects : List WorkRect)
    (lst : List WorkRect) : PassState :=
  lst.foldl (passStep cellContents) (PassState.mk workRects [] false)

/-- The sort of the processing list by ascending
`minBoundingSegmentDistance`. -/
def sortByMinDist (l : List WorkRect) : List WorkRect :=
  jsSortBy (fun a b =>
    jsLtb (jsSub a.minBoundingSegmentDistance b.minBoundingSegmentDistance) (jq 0)) l

/-- `mergeGrid.ts`: the `while (keepProcessing && length > 0)` region-growth
loop, with an explicit fuel parameter; the fuel used at the call site (the
length of the initial processing list) is proved sufficient below. -/
def mergeLoop (cellContents : List CellContent) :
    ℕ → List WorkRect → List WorkRect → List WorkRect
  | 0, workRects, _ => workRects
  | fuel + 1, workRects, lst =>
    if lst.isEmpty then workRects
    else
      let st := runPass cellContents workRects lst
      if st.keepProcessing then
        mergeLoop cellContents fuel st.workRects (sortByMinDist st.remainingAfterPass)
      else st.workRects

/-- A work rect whose `groupId` is set (the TS
`r is WorkRect & \x7b groupId: number \x7d` narrowing). -/
structure GroupedRect extends CellContent where
  groupId : ℕ
deriving DecidableEq, Repr

/-- Result record of `mergeGridRects`. -/
structure MergeResult where
  mergedRectGroups : List (List CellContent)
  groupedRects : List GroupedRect
deriving DecidableEq, Repr

/-- `mergeGrid.ts` (seeding): mark the first work rect matching a
containing rect's geometry (within tolerance) as merged with the cell index
as group id (the JS `find` + in-place mutation). -/
def seedStep (ws : List WorkRect) (pr : ℕ × CellContent) : List WorkRect :=
  updateFirst
    (fun w =>
      pointsEqual ⟨w.x, w.y⟩ ⟨pr.2.x, pr.2.y⟩ &&
      jsLtb (jsAbs (jsSub w.width pr.2.width)) POINT_COMPARISON_TOLERANCE &&
      jsLtb (jsAbs (jsSub w.height pr.2.height)) POINT_COMPARISON_TOLERANCE)
    (fun w => { w with merged := true, groupId := some pr.1 }) ws

/-- `mergeGrid.ts`: `mergeGridRects` — seed each containing rect with its
cell index as group id, then grow regions to a fixed point, and collect the
groups and the grouped rects. -/
def mergeGridRects (validSegments : List Line) (gridRects cellContainingRects
    cellContents : List CellContent) : MergeResult :=
  let workRects := gridRects.map (initWorkRect validSegments)
  let workRects := cellContainingRects.enum.foldl seedStep workRects
  let unmergedRectsProcessingList := sortByMinDist (workRects.filter fun r => !r.merged)
  let workRects := mergeLoop cellContents unmergedRectsProcessingList.length
    workRects unmergedRectsProcessingList
  let mergedRectGroups := cellContainingRects.enum.map fun (pr : ℕ × CellContent) =>
    let groupRects := (workRects.filter fun r => r.merged && r.groupId == some pr.1).map
      WorkRect.toCellContent
    [pr.2, cellContents.getD pr.1 dummyCell] ++
      groupRects.filter fun r => !(r.cellId == pr.2.cellId)
  let groupedRects := workRects.filterMap fun r =>
    r.groupId.map fun g => GroupedRect.mk r.toCellContent g
  MergeResult.mk mergedRectGroups groupedRects

/-- `Map.set` semantics on an association list: replace in place when the
key exists, else append (JS `Map` keeps the original position of an updated
key). -/
def upsertKey [DecidableEq κ] (k : κ) (v : β) : List (κ × β) → List (κ × β)
  | [] => [(k, v)]
  | (k', v') :: rest => if k = k' then (k, v) :: rest else (k', v') :: upsertKey k v rest

/-- The dedup map of `buildOutline.ts`: canonical segment key to the raw
endpoint pair, in insertion order. -/
abbrev SegMap : Type := List ((JsNum × JsNum × JsNum × JsNum) × (Point × Point))

/-- `buildOutline.ts` (pair body, first block): insert the shared vertical
edge portion of rects `a`, `b` (when longer than the tolerance) into the
dedup map. -/
def outlineVerticalInsert (segMap : SegMap) (a b : GroupedRect) : SegMap :=
  let TOL := POINT_COMPARISON_TOLERANCE
  let aRight := jsAdd a.x a.width
  let bRight := jsAdd b.x b.width
  if jsLtb (jsAbs (jsSub aRight b.x)) TOL || jsLtb (jsAbs (jsSub bRight a.x)) TOL then
    let x := if jsLtb (jsAbs (jsSub aRight b.x)) TOL then aRight else bRight
    let y0 := jsMax a.y b.y
    let y1 := jsMin (jsAdd a.y a.height) (jsAdd b.y b.height)
    if jsLtb TOL (jsSub y1 y0) then
      upsertKey (getSegmentKey ⟨x, y0⟩ ⟨x, y1⟩) (Point.mk x y0, Point.mk x y1) segMap
    else segMap
  else segMap

/-- `buildOutline.ts` (pair body, second block): insert the shared
horizontal edge portion of rects `a`, `b` (when longer than the tolerance)
into the dedup map. -/
def outlineHorizontalInsert (segMap : SegMap) (a b : GroupedRect) : SegMap :=
  let TOL := POINT_COMPARISON_TOLERANCE
  let aBot := jsAdd a.y a.height
  let bBot := jsAdd b.y b.height
  if jsLtb (jsAbs (jsSub aBot b.y)) TOL || jsLtb (jsAbs (jsSub bBot a.y)) TOL then
    let y := if jsLtb (jsAbs (jsSub aBot b.y)) TOL then aBot else bBot
    let x0 := jsMax a.x b.x
    let x1 := jsMin (jsAdd a.x a.width) (jsAdd b.x b.width)
    if jsLtb TOL (jsSub x1 x0) then
      upsertKey (getSegmentKey ⟨x0, y⟩ ⟨x1, y⟩) (Point.mk x0 y, Point.mk x1 y) segMap
    else segMap
  else segMap

/-- `buildOutline.ts` (pair body): for one pair of grouped rects, skip when
they are in the same group, else run the vertical-edge block and then the
horizontal-edge block. -/
def outlinePairStep (segMap : SegMap) (pr : GroupedRect × GroupedRect) : SegMap :=
  if pr.1.groupId == pr.2.groupId then segMap
  else outlineHorizontalInsert (outlineVerticalInsert segMap pr.1 pr.2) pr.1 pr.2

/-- `buildOutline.ts`: for every pair of grouped rects in different groups,
emit the shared edge portion into the dedup map, then read the map off in
insertion order and offset the lines. -/
def buildOutline (workRects : List GroupedRect) (offsetX offsetY : JsNum) : List Line :=
  let segMap := (orderedPairs workRects).foldl outlinePairStep []
  let outlineLines := segMap.enum.map fun pr => Line.mk pr.1 pr.2.2.1 pr.2.2.2 none none
  outlineLines.map fun l => offsetLine l offsetX offsetY

/-- Input rectangle of the debug pipeline (`Omit<CellContent, "cellId">`). -/
structure CellContentInput where
  x : JsNum
  y : JsNum
  width : JsNum
  height : JsNum
deriving DecidableEq, Repr

/-- The debug-result record of the `claude-cell-boundaries` pipeline. -/
structure DebugResult where
  midlines : List Midline
  allSegments : List Line
  validSegments : List Line
  mergedRectGroups : List (List CellContent)
  cellRects : List CellContent
  gridRects : List CellContent
  outlineLines : List Line
deriving DecidableEq, Repr

/-- The canonical pipeline assembler (`calculateCellBoundaries` of
`claude-cell-boundaries`, imported by the library entry point as
`calculateCellBoundariesDebug`): id assignment, bounds, translation to the
origin, midlines, intersections, segments, grid, region merge, outline. -/
def calculateCellBoundariesDebug (inputCellContents : List CellContentInput)
    (containerWidthArg containerHeightArg : Option JsNum) : DebugResult :=
  let originalCellContents := inputCellContents.enum.map fun pr =>
    CellContent.mk (CellId.cell pr.1) pr.2.x pr.2.y pr.2.width pr.2.height
  let containerBounds := computeBoundsFromCellContents
    (originalCellContents.map fun c =>
      Bounds.mk c.x c.y (jsAdd c.x c.width) (jsAdd c.y c.height))
  let offsetX := containerBounds.minX
  let offsetY := containerBounds.minY
  let containerWidth := containerWidthArg.getD (jsSub containerBounds.maxX containerBounds.minX)
  let containerHeight := containerHeightArg.getD (jsSub containerBounds.maxY containerBounds.minY)
  let cellContents := originalCellContents.map fun c =>
    { c with x := jsSub c.x offsetX, y := jsSub c.y offsetY }
  let midlines := computeMidlines cellContents containerWidth containerHeight
  let intersections := computeIntersections midlines
  let allSegments := computeSegments midlines intersections cellContents
  let grid := buildGrid allSegments cellContents containerWidth containerHeight
  let merge := mergeGridRects grid.validSegments grid.gridRects
    grid.cellContainingRects cellContents
  let outlineLines := buildOutline merge.groupedRects offsetX offsetY
  DebugResult.mk
    (midlines.map fun m =>
      { m with start := offsetPoint m.start offsetX offsetY
               end_ := offsetPoint m.end_ offsetX offsetY })
    (allSegments.map fun l => offsetLine l offsetX offsetY)
    (grid.validSegments.map fun l => offsetLine l offsetX offsetY)
    (merge.mergedRectGroups.map fun g => g.map fun r => offsetRect r offsetX offsetY)
    (cellContents.map fun r => offsetRect r offsetX offsetY)
    (grid.gridRects.map fun r => offsetRect r offsetX offsetY)
    outlineLines

/-- Public input rectangle (`CellContent` of the library `types`). -/
structure RectInput where
  minX : JsNum
  minY : JsNum
  maxX : JsNum
  maxY : JsNum
deriving DecidableEq, Repr

/-- Public output line (`Line` of the library `types`). -/
structure OutLine where
  start : Point
  end_ : Point
deriving DecidableEq, Repr

/-- The final sort's strict-before test: the JS comparator compares start
x, then start y; `a` goes before `b` when the comparator is negative. -/
def outlineSortLt (a b : OutLine) : Bool :=
  jsLtb
    (if !(jsEqb a.start.x b.start.x) then jsSub a.start.x b.start.x
     else jsSub a.start.y b.start.y)
    (jq 0)

/-- The library entry point `calculateCellBoundaries`: run the debug
pipeline on the converted rectangles, strip the outline lines down to
`\x7bstart, end\x7d` records, and sort by start x then start y. -/
def calculateCellBoundaries (inputCellContents : List RectInput) : List OutLine :=
  let res := calculateCellBoundariesDebug
    (inputCellContents.map fun c =>
      CellContentInput.mk c.minX c.minY (jsSub c.maxX c.minX) (jsSub c.maxY c.minY))
    none none
  jsSortBy outlineSortLt (res.outlineLines.map fun l => OutLine.mk l.start l.end_)

/-! ## Bridging lemmas: the kernel-reducible rational operations agree with
the field operations of `ℚ` -/

theorem num_cast_eq_mul_den (a : ℚ) : (a.num : ℚ) = a * (a.den : ℚ) := by
  have ha : ((a.den : ℚ)) ≠ 0 := by
    exact_mod_cast (Rat.den_pos a).ne'
  have h := Rat.num_div_den a
  rw [div_eq_iff ha] at h
  exact h

theorem qadd_eq (a b : ℚ) : qadd a b = a + b := by
  have ha : ((a.den : ℚ)) ≠ 0 := by exact_mod_cast (Rat.den_pos a).ne'
  have hb : ((b.den : ℚ)) ≠ 0 := by exact_mod_cast (Rat.den_pos b).ne'
  rw [qadd, Rat.mkRat_eq_div]
  push_cast
  rw [div_eq_iff (mul_ne_zero ha hb), num_cast_eq_mul_den a, num_cast_eq_mul_den b]
  ring

theorem qneg_eq (a : ℚ) : qneg a = -a := by
  have ha : ((a.den : ℚ)) ≠ 0 := by exact_mod_cast (Rat.den_pos a).ne'
  rw [qneg, Rat.mkRat_eq_div]
  push_cast
  rw [div_eq_iff ha, num_cast_eq_mul_den a]
  ring

theorem qmul_eq (a b : ℚ) : qmul a b = a * b := by
  have ha : ((a.den : ℚ)) ≠ 0 := by exact_mod_cast (Rat.den_pos a).ne'
  have hb : ((b.den : ℚ)) ≠ 0 := by exact_mod_cast (Rat.den_pos b).ne'
  rw [qmul, Rat.mkRat_eq_div]
  push_cast
  rw [div_eq_iff (mul_ne_zero ha hb), num_cast_eq_mul_den a, num_cast_eq_mul_den b]
  ring

theorem qabs_eq (a : ℚ) : qabs a = |a| := by
  rw [qabs]
  rcases lt_or_le a.num 0 with h | h
  · rw [if_pos h, qneg_eq, abs_of_neg]
    exact Rat.num_neg.mp h
  · rw [if_neg (not_lt.mpr h), abs_of_nonneg]
    exact Rat.num_nonneg.mp h

theorem jsSub_fin_fin (a b : ℚ) : jsSub (fin a) (fin b) = fin (a - b) := by
  simp [jsSub, jsAdd, jsNeg, qadd_eq, qneg_eq]
  ring

/-! ## Claim theorems -/

/-- C1: for the two rectangles `(0,0)-(100,100)` and `(200,0)-(300,100)`,
`calculateCellBoundaries` returns exactly one line segment — the vertical
segment from `(150,0)` to `(150,100)` at the midpoint of the horizontal
gap. -/
theorem c1_two_rects_single_gap_segment :
    calculateCellBoundaries
      [⟨jq 0, jq 0, jq 100, jq 100⟩, ⟨jq 200, jq 0, jq 300, jq 100⟩] =
      [⟨⟨jq 150, jq 0⟩, ⟨jq 150, jq 100⟩⟩] := by
  decide

/-- C2 (evaluation at the failing input): the claim demands that an input
containing a rectangle with `minX ≥ maxX` or `minY ≥ maxY` is rejected with
a validation error before any geometry computation.  The source has no
validation or error path at all (`calculateCellBoundaries` is a total
function into line lists in this embedding because the source never
throws): with the invalid rectangle `(500,500)-(500,400)` (`minX = maxX`
and `minY > maxY`) present, the pipeline runs the full geometry computation
over all three rectangles and returns two computed boundary segments
instead of signalling anything. -/
theorem c2_invalid_rect_runs_pipeline :
    calculateCellBoundaries
      [⟨jq 0, jq 0, jq 100, jq 100⟩, ⟨jq 200, jq 0, jq 300, jq 100⟩,
       ⟨jq 500, jq 500, jq 500, jq 400⟩] =
      [⟨⟨jq 150, jq 0⟩, ⟨jq 150, jq 300⟩⟩, ⟨⟨jq 150, jq 300⟩, ⟨jq 150, jq 400⟩⟩] := by
  decide

/-- C8 (counterexample): for the empty rectangle list the bounds computer
does **not** collapse the `±Infinity` extremes to 0 — it returns the fold's
initial values `minX = minY = +Infinity`, `maxX = maxY = -Infinity`, which
are infinite coordinates. -/
theorem c8_counterexample_bounds_are_infinite :
    computeBoundsFromCellContents [] = ⟨posInf, posInf, negInf, negInf⟩ ∧
    (posInf : JsNum) ≠ jq 0 ∧ (negInf : JsNum) ≠ jq 0 := by
  decide

/-- C8 (amended): for the empty rectangle list the bounds computer returns
the degenerate inverted bounds `minX = minY = +Infinity`,
`maxX = maxY = -Infinity` (the fold's initial values, not collapsed to 0),
and the pipeline's result downstream of it is empty. -/
theorem c8_empty_bounds_and_empty_result :
    computeBoundsFromCellContents [] = ⟨posInf, posInf, negInf, negInf⟩ ∧
    calculateCellBoundaries [] = [] := by
  decide

/-! ## Grid-construction lemmas (for the grid-rect overlap claim) -/

theorem gridInnerStep_fold_mem (cells : List CellContent) (xp : JsNum × JsNum)
    (yps : List (JsNum × JsNum)) :
    ∀ st : ℕ × List CellContent, ∀ r ∈ (yps.foldl (gridInnerStep cells xp) st).2,
      r ∈ st.2 ∨ (∀ c ∈ cells, rectsOverlap r c = false) := by
  induction yps with
  | nil => intro st r hr; exact Or.inl hr
  | cons yp yps ih =>
    intro st r hr
    rcases ih (gridInnerStep cells xp st yp) r hr with h | h
    · unfold gridInnerStep at h
      split at h
      · exact Or.inl h
      · dsimp only at h
        split at h
        · exact Or.inl h
        · rename_i hguard
          simp only at h
          rcases List.mem_append.mp h with h' | h'
          · exact Or.inl h'
          · right
            intro c hc
            rcases List.mem_singleton.mp h' with rfl
            have := List.any_eq_false.mp (Bool.eq_false_iff.mpr hguard)
            exact Bool.eq_false_iff.mpr (this c hc)
    · exact Or.inr h

theorem gridOuterStep_fold_mem (cells : List CellContent)
    (yps : List (JsNum × JsNum)) (xps : List (JsNum × JsNum)) :
    ∀ st : ℕ × List CellContent, ∀ r ∈ (xps.foldl (gridOuterStep cells yps) st).2,
      r ∈ st.2 ∨ (∀ c ∈ cells, rectsOverlap r c = false) := by
  induction xps with
  | nil => intro st r hr; exact Or.inl hr
  | cons xp xps ih =>
    intro st r hr
    rcases ih (gridOuterStep cells yps st xp) r hr with h | h
    · unfold gridOuterStep at h
      split at h
      · exact Or.inl h
      · exact gridInnerStep_fold_mem cells xp yps st r h
    · exact Or.inr h

theorem appendContaining_fold_mem (crs : List CellContent) :
    ∀ acc : List CellContent, ∀ r ∈ crs.foldl appendContainingStep acc,
      r ∈ acc ∨ r ∈ crs := by
  induction crs with
  | nil => intro acc r hr; exact Or.inl hr
  | cons cr crs ih =>
    intro acc r hr
    rcases ih (appendContainingStep acc cr) r hr with h | h
    · unfold appendContainingStep at h
      split at h
      · exact Or.inl h
      · rcases List.mem_append.mp h with h' | h'
        · exact Or.inl h'
        · rcases List.mem_singleton.mp h' with rfl
          exact Or.inr (List.mem_cons_self _ _)
    · exact Or.inr (List.mem_cons_of_mem _ h)

/-- C4 (amended): every rectangle in the `gridRects` list returned by
`buildGrid` either overlaps no input rectangle (this covers every rect
produced by the Cartesian-product grid loop, which filters by
`rectsOverlap`) or is one of the appended containing rects — which may
overlap the input rectangle they enclose. -/
theorem c4_grid_rects_no_overlap_or_containing (allSegments : List Line)
    (cellContents : List CellContent) (containerWidth containerHeight : JsNum) :
    ∀ r ∈ (buildGrid allSegments cellContents containerWidth containerHeight).gridRects,
      (∀ c ∈ cellContents, rectsOverlap r c = false) ∨
      r ∈ (buildGrid allSegments cellContents containerWidth containerHeight).cellContainingRects := by
  intro r hr
  simp only [buildGrid] at hr ⊢
  rcases appendContaining_fold_mem _ _ r hr with h | h
  · rcases gridOuterStep_fold_mem _ _ _ _ r h with h' | h'
    · simp at h'
    · exact Or.inl h'
  · exact Or.inr h

/-- C4 (counterexample): for the single input rectangle `(0,0)-(100,100)`
with no segments and a `100 × 100` container, `buildGrid` returns a
`gridRects` list one member of which (the appended containing rect, which
encloses the cell) *does* overlap an input rectangle under `rectsOverlap` —
so the claim "every rectangle in `gridRects` does not overlap any input
rectangle" is false as stated. -/
theorem c4_counterexample_grid_rect_overlaps :
    ((buildGrid [] [⟨CellId.cell 0, jq 0, jq 0, jq 100, jq 100⟩] (jq 100) (jq 100)).gridRects.any
      fun r => rectsOverlap r ⟨CellId.cell 0, jq 0, jq 0, jq 100, jq 100⟩) = true := by
  decide

/-- C4 (witness): the amended theorem applied to the concrete counterexample
instance — the offending grid rect is one of the appended containing rects. -/
theorem c4_witness :
    (∀ c ∈ [(⟨CellId.cell 0, jq 0, jq 0, jq 100, jq 100⟩ : CellContent)],
      rectsOverlap ⟨CellId.contain (CellId.cell 0), jq 0, jq 0, jq 100, jq 100⟩ c = false) ∨
    (⟨CellId.contain (CellId.cell 0), jq 0, jq 0, jq 100, jq 100⟩ : CellContent) ∈
      (buildGrid [] [⟨CellId.cell 0, jq 0, jq 0, jq 100, jq 100⟩] (jq 100) (jq 100)).cellContainingRects :=
  c4_grid_rects_no_overlap_or_containing [] _ (jq 100) (jq 100) _ (by decide)

/-! ## Outline-segment invariants -/

/-- The shape invariant of every raw (pre-offset) segment inserted into the
outline dedup map: vertical with a span strictly longer than the tolerance,
or horizontal likewise. -/
def rawSegOK (s e : Point) : Prop :=
  (s.x = e.x ∧ jsLtb POINT_COMPARISON_TOLERANCE (jsSub e.y s.y) = true) ∨
  (s.y = e.y ∧ jsLtb POINT_COMPARISON_TOLERANCE (jsSub e.x s.x) = true)

theorem upsertKey_mem [DecidableEq κ] (k : κ) (v : β) :
    ∀ m : List (κ × β), ∀ kv ∈ upsertKey k v m, kv = (k, v) ∨ kv ∈ m := by
  intro m
  induction m with
  | nil => intro kv hkv; simp [upsertKey] at hkv; exact Or.inl hkv
  | cons hd tl ih =>
    intro kv hkv
    rw [upsertKey] at hkv
    split at hkv
    · rcases List.mem_cons.mp hkv with h | h
      · exact Or.inl h
      · exact Or.inr (List.mem_cons_of_mem _ h)
    · rcases List.mem_cons.mp hkv with h | h
      · exact Or.inr (h ▸ List.mem_cons_self _ _)
      · rcases ih kv h with h' | h'
        · exact Or.inl h'
        · exact Or.inr (List.mem_cons_of_mem _ h')

theorem outlineVerticalInsert_mem (m : SegMap) (a b : GroupedRect) :
    ∀ kv ∈ outlineVerticalInsert m a b, kv ∈ m ∨ rawSegOK kv.2.1 kv.2.2 := by
  intro kv hkv
  rw [outlineVerticalInsert] at hkv
  dsimp only at hkv
  split at hkv
  · split at hkv
    · rcases upsertKey_mem _ _ _ kv hkv with h | h
      · right
        rw [h]
        exact Or.inl ⟨rfl, by assumption⟩
      · exact Or.inl h
    · exact Or.inl hkv
  · exact Or.inl hkv

theorem outlineHorizontalInsert_mem (m : SegMap) (a b : GroupedRect) :
    ∀ kv ∈ outlineHorizontalInsert m a b, kv ∈ m ∨ rawSegOK kv.2.1 kv.2.2 := by
  intro kv hkv
  rw [outlineHorizontalInsert] at hkv
  dsimp only at hkv
  split at hkv
  · split at hkv
    · rcases upsertKey_mem _ _ _ kv hkv with h | h
      · right
        rw [h]
        exact Or.inr ⟨rfl, by assumption⟩
      · exact Or.inl h
    · exact Or.inl hkv
  · exact Or.inl hkv

theorem outlinePairStep_mem (m : SegMap) (pr : GroupedRect × GroupedRect) :
    ∀ kv ∈ outlinePairStep m pr, kv ∈ m ∨ rawSegOK kv.2.1 kv.2.2 := by
  intro kv hkv
  rw [outlinePairStep] at hkv
  split at hkv
  · exact Or.inl hkv
  · rcases outlineHorizontalInsert_mem _ _ _ kv hkv with h | h
    · rcases outlineVerticalInsert_mem _ _ _ kv h with h' | h'
      · exact Or.inl h'
      · exact Or.inr h'
    · exact Or.inr h

theorem outlineFold_mem (prs : List (GroupedRect × GroupedRect)) :
    ∀ m : SegMap, (∀ kv ∈ m, rawSegOK kv.2.1 kv.2.2) →
      ∀ kv ∈ prs.foldl outlinePairStep m, rawSegOK kv.2.1 kv.2.2 := by
  induction prs with
  | nil => intro m hm kv hkv; exact hm kv hkv
  | cons pr prs ih =>
    intro m hm kv hkv
    refine ih (outlinePairStep m pr) ?_ kv hkv
    intro kv' hkv'
    rcases outlinePairStep_mem m pr kv' hkv' with h | h
    · exact hm kv' h
    · exact h

theorem mem_enumFrom_snd {α : Type _} (l : List α) :
    ∀ n (p : ℕ × α), p ∈ l.enumFrom n → p.2 ∈ l := by
  induction l with
  | nil => intro n p hp; simp [List.enumFrom] at hp
  | cons x l ih =>
    intro n p hp
    rcases List.mem_cons.mp hp with h | h
    · rw [h]
      exact List.mem_cons_self _ _
    · exact List.mem_cons_of_mem _ (ih (n + 1) p h)

theorem buildOutline_mem (workRects : List GroupedRect) (offsetX offsetY : JsNum)
    (l : Line) (hl : l ∈ buildOutline workRects offsetX offsetY) :
    ∃ s e, rawSegOK s e ∧
      l.start = offsetPoint s offsetX offsetY ∧ l.end_ = offsetPoint e offsetX offsetY := by
  rw [buildOutline] at hl
  rcases List.mem_map.mp hl with ⟨l0, hl0, rfl⟩
  rcases List.mem_map.mp hl0 with ⟨pr, hpr, rfl⟩
  have hmem := mem_enumFrom_snd _ 0 pr hpr
  have hok := outlineFold_mem _ [] (by intro kv hkv; simp at hkv) pr.2 hmem
  exact ⟨pr.2.2.1, pr.2.2.2, hok, rfl, rfl⟩


theorem tolq_pos : (0 : ℚ) < mkRat 1 1000 := by
  rw [Rat.mkRat_eq_div]
  norm_num

theorem jsSub_add_cancel (x y : JsNum) (q : ℚ) :
    jsSub (jsAdd x (fin q)) (jsAdd y (fin q)) = jsSub x y := by
  rcases x with _ | _ | _ | a <;> rcases y with _ | _ | _ | b <;>
    (simp [jsSub, jsAdd, jsNeg, qadd_eq, qneg_eq]; try ring_nf)

theorem jsLtb_tol_imp_ne {a b : JsNum}
    (h : jsLtb POINT_COMPARISON_TOLERANCE (jsSub b a) = true) : a ≠ b := by
  intro heq
  subst heq
  rcases a with _ | _ | _ | q <;>
    simp [POINT_COMPARISON_TOLERANCE, jq, jsSub, jsAdd, jsNeg, jsLtb, qadd_eq, qneg_eq] at h
  exact absurd h (not_lt.mpr tolq_pos.le)

theorem jsLtb_tol_imp_lt {a b : JsNum}
    (h : jsLtb POINT_COMPARISON_TOLERANCE (jsSub b a) = true) : jsLtb a b = true := by
  rcases a with _ | _ | _ | qa <;> rcases b with _ | _ | _ | qb <;>
    simp [POINT_COMPARISON_TOLERANCE, jq, jsSub, jsAdd, jsNeg, jsLtb, qadd_eq, qneg_eq] at h ⊢
  have := tolq_pos
  linarith

/-- C10: every line returned by the outline builder `buildOutline` (under
the finite offsets the pipeline supplies) is axis-aligned and
non-degenerate: its endpoints share exactly one coordinate, and the
differing coordinate spans strictly more than the point-comparison
tolerance — no zero-length or diagonal segment ever appears. -/
theorem c10_outline_segments_axis_aligned (workRects : List GroupedRect)
    (offsetX offsetY : JsNum) (qx qy : ℚ)
    (hx : offsetX = fin qx) (hy : offsetY = fin qy) :
    ∀ l ∈ buildOutline workRects offsetX offsetY,
      (l.start.x = l.end_.x ∧ l.start.y ≠ l.end_.y ∧
        jsLtb POINT_COMPARISON_TOLERANCE (jsSub l.end_.y l.start.y) = true) ∨
      (l.start.y = l.end_.y ∧ l.start.x ≠ l.end_.x ∧
        jsLtb POINT_COMPARISON_TOLERANCE (jsSub l.end_.x l.start.x) = true) := by
  intro l hl
  rcases buildOutline_mem _ _ _ l hl with ⟨s, e, hok, hs, he⟩
  subst hx hy
  rcases hok with ⟨heq, hspan⟩ | ⟨heq, hspan⟩
  · left
    refine ⟨by rw [hs, he]; simp [offsetPoint, heq], ?_, ?_⟩
    · rw [hs, he]
      simp only [offsetPoint]
      exact jsLtb_tol_imp_ne (by rw [jsSub_add_cancel]; exact hspan)
    · rw [hs, he]
      simp only [offsetPoint]
      rw [jsSub_add_cancel]
      exact hspan
  · right
    refine ⟨by rw [hs, he]; simp [offsetPoint, heq], ?_, ?_⟩
    · rw [hs, he]
      simp only [offsetPoint]
      exact jsLtb_tol_imp_ne (by rw [jsSub_add_cancel]; exact hspan)
    · rw [hs, he]
      simp only [offsetPoint]
      rw [jsSub_add_cancel]
      exact hspan

/-- C10 (witness): the axis-alignment theorem applied to a concrete
two-group outline — the single emitted line is the vertical segment
`(100,0)-(100,100)`. -/
theorem c10_witness :
    ((Line.mk 0 ⟨jq 100, jq 0⟩ ⟨jq 100, jq 100⟩ none none).start.x =
        (Line.mk 0 ⟨jq 100, jq 0⟩ ⟨jq 100, jq 100⟩ none none).end_.x ∧
      (Line.mk 0 ⟨jq 100, jq 0⟩ ⟨jq 100, jq 100⟩ none none).start.y ≠
        (Line.mk 0 ⟨jq 100, jq 0⟩ ⟨jq 100, jq 100⟩ none none).end_.y ∧
      jsLtb POINT_COMPARISON_TOLERANCE
        (jsSub (Line.mk 0 ⟨jq 100, jq 0⟩ ⟨jq 100, jq 100⟩ none none).end_.y
          (Line.mk 0 ⟨jq 100, jq 0⟩ ⟨jq 100, jq 100⟩ none none).start.y) = true) ∨
    ((Line.mk 0 ⟨jq 100, jq 0⟩ ⟨jq 100, jq 100⟩ none none).start.y =
        (Line.mk 0 ⟨jq 100, jq 0⟩ ⟨jq 100, jq 100⟩ none none).end_.y ∧
      (Line.mk 0 ⟨jq 100, jq 0⟩ ⟨jq 100, jq 100⟩ none none).start.x ≠
        (Line.mk 0 ⟨jq 100, jq 0⟩ ⟨jq 100, jq 100⟩ none none).end_.x ∧
      jsLtb POINT_COMPARISON_TOLERANCE
        (jsSub (Line.mk 0 ⟨jq 100, jq 0⟩ ⟨jq 100, jq 100⟩ none none).end_.x
          (Line.mk 0 ⟨jq 100, jq 0⟩ ⟨jq 100, jq 100⟩ none none).start.x) = true) :=
  c10_outline_segments_axis_aligned
    [⟨⟨CellId.gridRect 0, jq 0, jq 0, jq 100, jq 100⟩, 0⟩,
     ⟨⟨CellId.gridRect 1, jq 100, jq 0, jq 100, jq 100⟩, 1⟩]
    (fin 0) (fin 0) 0 0 rfl rfl
    (Line.mk 0 ⟨jq 100, jq 0⟩ ⟨jq 100, jq 100⟩ none none) (by decide)

/-! ## Sorting lemmas -/

theorem insertSorted_perm (lt : α → α → Bool) (x : α) :
    ∀ l, (insertSorted lt x l).Perm (x :: l) := by
  intro l
  induction l with
  | nil => simp [insertSorted]
  | cons y l ih =>
    rw [insertSorted]
    split
    · exact List.Perm.refl _
    · exact (List.Perm.cons y ih).trans (List.Perm.swap x y l)

theorem jsSortBy_perm (lt : α → α → Bool) (l : List α) : (jsSortBy lt l).Perm l := by
  have aux : ∀ (l acc : List α),
      (List.foldl (fun acc x => insertSorted lt x acc) acc l).Perm (acc ++ l) := by
    intro l
    induction l with
    | nil => intro acc; simp
    | cons x l ih =>
      intro acc
      refine (ih (insertSorted lt x acc)).trans ?_
      refine (List.Perm.append_right l (insertSorted_perm lt x acc)).trans ?_
      exact List.perm_middle.symm
  simpa using aux l []

theorem insertSorted_head (lt : α → α → Bool) (x : α) :
    ∀ l, (insertSorted lt x l).head? = some x ∨ (insertSorted lt x l).head? = l.head? := by
  intro l
  induction l with
  | nil => simp [insertSorted]
  | cons y l _ =>
    rw [insertSorted]
    split
    · exact Or.inl rfl
    · exact Or.inr rfl

theorem chain_insertSorted (lt : α → α → Bool)
    (hasym : ∀ a b, lt a b = true → lt b a = false) (x : α) :
    ∀ l, List.Chain' (fun a b => lt b a = false) l →
      List.Chain' (fun a b => lt b a = false) (insertSorted lt x l) := by
  intro l
  induction l with
  | nil => intro _; simp [insertSorted]
  | cons y l ih =>
    intro hl
    rw [insertSorted]
    split
    · rename_i hxy
      refine List.chain'_cons'.mpr ⟨?_, hl⟩
      intro z hz
      rw [List.head?_cons] at hz
      injection hz with h'
      rw [← h']
      exact hasym x y hxy
    · rename_i hxy
      have hxy' : lt x y = false := Bool.eq_false_iff.mpr hxy
      rcases List.chain'_cons'.mp hl with ⟨hhead, htail⟩
      refine List.chain'_cons'.mpr ⟨?_, ih htail⟩
      intro z hz
      rcases insertSorted_head lt x l with h | h
      · rw [h] at hz
        injection hz with h'
        rw [← h']
        exact hxy'
      · rw [h] at hz
        exact hhead z hz

theorem jsSortBy_chain (lt : α → α → Bool)
    (hasym : ∀ a b, lt a b = true → lt b a = false) (l : List α) :
    List.Chain' (fun a b => lt b a = false) (jsSortBy lt l) := by
  have aux : ∀ (l acc : List α), List.Chain' (fun a b => lt b a = false) acc →
      List.Chain' (fun a b => lt b a = false)
        (List.foldl (fun acc x => insertSorted lt x acc) acc l) := by
    intro l
    induction l with
    | nil => intro acc h; exact h
    | cons x l ih =>
      intro acc h
      exact ih (insertSorted lt x acc) (chain_insertSorted lt hasym x acc h)
  exact aux l [] (by simp)

theorem jsEqb_comm (a b : JsNum) : jsEqb a b = jsEqb b a := by
  rcases a with _ | _ | _ | qa <;> rcases b with _ | _ | _ | qb <;>
    simp [jsEqb, eq_comm]

theorem jsSub_antisymm (a b : JsNum) : jsSub b a = jsNeg (jsSub a b) := by
  rcases a with _ | _ | _ | qa <;> rcases b with _ | _ | _ | qb <;>
    (simp [jsSub, jsAdd, jsNeg, qadd_eq, qneg_eq]; try ring_nf)

theorem jsLtb_zero_of_neg {s : JsNum} (h : jsLtb s (jq 0) = true) :
    jsLtb (jsNeg s) (jq 0) = false := by
  rcases s with _ | _ | _ | q <;> simp [jsLtb, jsNeg, jq, qneg_eq] at h ⊢
  linarith

theorem outlineSortLt_asymm (a b : OutLine) (h : outlineSortLt a b = true) :
    outlineSortLt b a = false := by
  rw [outlineSortLt] at h ⊢
  rw [jsEqb_comm b.start.x a.start.x]
  cases hE : jsEqb a.start.x b.start.x with
  | false =>
    rw [hE] at h
    simp only [Bool.not_false, if_true] at h ⊢
    rw [jsSub_antisymm a.start.x b.start.x]
    exact jsLtb_zero_of_neg h
  | true =>
    rw [hE] at h
    simp only [Bool.not_true, if_false] at h ⊢
    rw [jsSub_antisymm a.start.y b.start.y]
    exact jsLtb_zero_of_neg h

theorem jsMin_fin_fin_ex (a b : ℚ) : ∃ r, jsMin (fin a) (fin b) = fin r := by
  rw [jsMin]
  split
  · next h => rcases h with h | h <;> simp at h
  · split
    · exact ⟨a, rfl⟩
    · exact ⟨b, rfl⟩

theorem computeBounds_min_fin (l : List Bounds) (hne : l ≠ [])
    (hfin : ∀ b ∈ l, (∃ q, b.minX = fin q) ∧ (∃ q, b.minY = fin q)) :
    (∃ q, (computeBoundsFromCellContents l).minX = fin q) ∧
    (∃ q, (computeBoundsFromCellContents l).minY = fin q) := by
  have aux : ∀ (l : List Bounds) (acc : Bounds),
      (∀ b ∈ l, (∃ q, b.minX = fin q) ∧ (∃ q, b.minY = fin q)) →
      ((∃ q, acc.minX = fin q) ∧ (∃ q, acc.minY = fin q)) →
      (∃ q, (l.foldl (fun acc cell =>
          Bounds.mk (jsMin acc.minX cell.minX) (jsMin acc.minY cell.minY)
            (jsMax acc.maxX cell.maxX) (jsMax acc.maxY cell.maxY)) acc).minX = fin q) ∧
      (∃ q, (l.foldl (fun acc cell =>
          Bounds.mk (jsMin acc.minX cell.minX) (jsMin acc.minY cell.minY)
            (jsMax acc.maxX cell.maxX) (jsMax acc.maxY cell.maxY)) acc).minY = fin q) := by
    intro l
    induction l with
    | nil => intro acc _ hacc; exact hacc
    | cons b l ih =>
      intro acc hl hacc
      refine ih _ (fun b' hb' => hl b' (List.mem_cons_of_mem _ hb')) ?_
      obtain ⟨⟨qx, hqx⟩, ⟨qy, hqy⟩⟩ := hl b (List.mem_cons_self _ _)
      obtain ⟨⟨ax, hax⟩, ⟨ay, hay⟩⟩ := hacc
      constructor
      · obtain ⟨r, hr⟩ := jsMin_fin_fin_ex ax qx
        exact ⟨r, by dsimp only; rw [hax, hqx]; exact hr⟩
      · obtain ⟨r, hr⟩ := jsMin_fin_fin_ex ay qy
        exact ⟨r, by dsimp only; rw [hay, hqy]; exact hr⟩
  rcases l with _ | ⟨b, l⟩
  · exact absurd rfl hne
  · rw [computeBoundsFromCellContents]
    rw [List.foldl_cons]
    obtain ⟨⟨qx, hqx⟩, ⟨qy, hqy⟩⟩ := hfin b (List.mem_cons_self _ _)
    refine aux l _ (fun b' hb' => hfin b' (List.mem_cons_of_mem _ hb')) ?_
    constructor
    · exact ⟨qx, by dsimp only; rw [hqx]; simp [jsMin, jsLeb]⟩
    · exact ⟨qy, by dsimp only; rw [hqy]; simp [jsMin, jsLeb]⟩

theorem debug_outline_mem (inputs : List CellContentInput)
    (cw ch : Option JsNum) (hne : inputs ≠ [])
    (hfin : ∀ c ∈ inputs, ∃ a b w h : ℚ, c = ⟨fin a, fin b, fin w, fin h⟩) :
    ∀ l ∈ (calculateCellBoundariesDebug inputs cw ch).outlineLines,
      ∃ (s e : Point) (qx qy : ℚ), rawSegOK s e ∧
        l.start = offsetPoint s (fin qx) (fin qy) ∧
        l.end_ = offsetPoint e (fin qx) (fin qy) := by
  intro l hl
  rw [calculateCellBoundariesDebug] at hl
  dsimp only at hl
  obtain ⟨s0, e0, hok, h1, h2⟩ := buildOutline_mem _ _ _ l hl
  have hbounds := computeBounds_min_fin
    ((inputs.enum.map (fun pr =>
        CellContent.mk (CellId.cell pr.1) pr.2.x pr.2.y pr.2.width pr.2.height)).map
      (fun c => Bounds.mk c.x c.y (jsAdd c.x c.width) (jsAdd c.y c.height)))
    (by simp [hne])
    (by
      intro b hb
      simp only [List.mem_map] at hb
      obtain ⟨c, ⟨pr, hpr, rfl⟩, rfl⟩ := hb
      have hc := mem_enumFrom_snd inputs 0 pr hpr
      obtain ⟨a, b', w, h, hh⟩ := hfin pr.2 hc
      constructor
      · exact ⟨a, by rw [hh]⟩
      · exact ⟨b', by rw [hh]⟩)
  obtain ⟨⟨qx, hqx⟩, ⟨qy, hqy⟩⟩ := hbounds
  rw [hqx, hqy] at h1 h2
  exact ⟨s0, e0, qx, qy, hok, h1, h2⟩

/-- C5 (amended): the final output of `calculateCellBoundaries` is *not*
re-merged into maximal collinear runs (see the counterexample); what does
hold is the rest of the claim, adjusted to the code's sort key: every
returned segment has its lexicographically smaller endpoint first, and the
returned list is sorted by start point (x, then y) — the end point is not
part of the sort key. -/
theorem c5_output_smaller_endpoint_first_and_sorted (input : List RectInput)
    (hfin : ∀ r ∈ input, ∃ a b c d : ℚ, r = ⟨fin a, fin b, fin c, fin d⟩) :
    (∀ s ∈ calculateCellBoundaries input,
      jsLtb s.start.x s.end_.x = true ∨
        (s.start.x = s.end_.x ∧ jsLtb s.start.y s.end_.y = true)) ∧
    List.Chain' (fun a b => outlineSortLt b a = false) (calculateCellBoundaries input) := by
  constructor
  · intro s hs
    rcases List.eq_nil_or_concat input with rfl | _
    · have h0 : calculateCellBoundaries [] = [] := by decide
      rw [h0] at hs
      simp at hs
    · have hne : input ≠ [] := by
        rename_i h
        obtain ⟨L, b, rfl⟩ := h
        simp
      rw [calculateCellBoundaries] at hs
      have hs' := ((jsSortBy_perm _ _).mem_iff).mp hs
      rcases List.mem_map.mp hs' with ⟨l, hl, rfl⟩
      obtain ⟨s0, e0, qx, qy, hok, h1, h2⟩ := debug_outline_mem _ none none
        (by simpa using hne)
        (by
          intro c hc
          simp only [List.mem_map] at hc
          obtain ⟨r, hr, rfl⟩ := hc
          obtain ⟨a, b, c', d, rfl⟩ := hfin r hr
          exact ⟨a, b, _, _, rfl⟩)
        l hl
      rcases hok with ⟨heq, hspan⟩ | ⟨heq, hspan⟩
      · right
        constructor
        · dsimp only
          rw [h1, h2]
          simp [offsetPoint, heq]
        · dsimp only
          rw [h1, h2]
          simp only [offsetPoint]
          exact jsLtb_tol_imp_lt (by rw [jsSub_add_cancel]; exact hspan)
      · left
        dsimp only
        rw [h1, h2]
        simp only [offsetPoint]
        exact jsLtb_tol_imp_lt (by rw [jsSub_add_cancel]; exact hspan)
  · rw [calculateCellBoundaries]
    exact jsSortBy_chain _ outlineSortLt_asymm _

/-- C5 (counterexample): for the three rectangles `(50,50)-(150,150)`,
`(300,250)-(400,350)`, `(50,250)-(150,350)`, the output of
`calculateCellBoundaries` contains *both* vertical segments
`(225,50)-(225,200)` and `(225,200)-(225,350)`: they share the fixed
coordinate `x = 225` and touch at `(225,200)`, yet are not merged into one
maximal run — the claim's merging property is false on the code (the
normalizer described by the spec exists only in a superseded historical
implementation). -/
theorem c5_counterexample_touching_collinear_not_merged :
    (⟨⟨jq 225, jq 50⟩, ⟨jq 225, jq 200⟩⟩ : OutLine) ∈ calculateCellBoundaries
      [⟨jq 50, jq 50, jq 150, jq 150⟩, ⟨jq 300, jq 250, jq 400, jq 350⟩,
       ⟨jq 50, jq 250, jq 150, jq 350⟩] ∧
    (⟨⟨jq 225, jq 200⟩, ⟨jq 225, jq 350⟩⟩ : OutLine) ∈ calculateCellBoundaries
      [⟨jq 50, jq 50, jq 150, jq 150⟩, ⟨jq 300, jq 250, jq 400, jq 350⟩,
       ⟨jq 50, jq 250, jq 150, jq 350⟩] := by
  decide

/-- C5 (witness): the amended theorem applied to the concrete two-rectangle
input of the first test fixture. -/
theorem c5_witness :
    (∀ s ∈ calculateCellBoundaries
        [⟨jq 0, jq 0, jq 100, jq 100⟩, ⟨jq 200, jq 0, jq 300, jq 100⟩],
      jsLtb s.start.x s.end_.x = true ∨
        (s.start.x = s.end_.x ∧ jsLtb s.start.y s.end_.y = true)) ∧
    List.Chain' (fun a b => outlineSortLt b a = false)
      (calculateCellBoundaries
        [⟨jq 0, jq 0, jq 100, jq 100⟩, ⟨jq 200, jq 0, jq 300, jq 100⟩]) :=
  c5_output_smaller_endpoint_first_and_sorted _
    (by
      intro r hr
      simp only [List.mem_cons, List.not_mem_nil, or_false] at hr
      rcases hr with rfl | rfl
      · exact ⟨0, 0, 100, 100, rfl⟩
      · exact ⟨200, 0, 300, 100, rfl⟩)

/-! ## Group-id propagation (degenerate inputs return no segments) -/

theorem updateFirst_mem (p : α → Bool) (f : α → α) :
    ∀ l : List α, ∀ w ∈ updateFirst p f l, w ∈ l ∨ ∃ u ∈ l, w = f u := by
  intro l
  induction l with
  | nil => intro w hw; simp [updateFirst] at hw
  | cons x l ih =>
    intro w hw
    rw [updateFirst] at hw
    split at hw
    · rcases List.mem_cons.mp hw with h | h
      · exact Or.inr ⟨x, List.mem_cons_self _ _, h⟩
      · exact Or.inl (List.mem_cons_of_mem _ h)
    · rcases List.mem_cons.mp hw with h | h
      · exact Or.inl (h ▸ List.mem_cons_self _ _)
      · rcases ih w h with h' | ⟨u, hu, hw'⟩
        · exact Or.inl (List.mem_cons_of_mem _ h')
        · exact Or.inr ⟨u, List.mem_cons_of_mem _ hu, hw'⟩

theorem pickBest_fold_mem (cells : List CellContent) (cur : WorkRect) :
    ∀ (ns : List WorkRect) (acc : Option ℕ × JsNum),
      (ns.foldl (pickBestStep cells cur) acc).1 = acc.1 ∨
      ∃ n ∈ ns, n.groupId = (ns.foldl (pickBestStep cells cur) acc).1 := by
  intro ns
  induction ns with
  | nil => intro acc; exact Or.inl rfl
  | cons n ns ih =>
    intro acc
    rw [List.foldl_cons]
    rcases ih (pickBestStep cells cur acc n) with h | ⟨m, hm, hgid⟩
    · rw [h]
      rw [pickBestStep]
      rcases hgid_n : n.groupId with _ | g
      · exact Or.inl rfl
      · dsimp only
        split
        · exact Or.inr ⟨n, List.mem_cons_self _ _, by rw [hgid_n]⟩
        · split
          · split
            · exact Or.inr ⟨n, List.mem_cons_self _ _, by rw [hgid_n]⟩
            · rename_i b hb
              split
              · exact Or.inr ⟨n, List.mem_cons_self _ _, by rw [hgid_n]⟩
              · exact Or.inl (by rw [hb])
          · exact Or.inl rfl
    · exact Or.inr ⟨m, List.mem_cons_of_mem _ hm, hgid⟩

theorem pickBestGroupId_mem (cells : List CellContent) (cur : WorkRect)
    (ns : List WorkRect) :
    pickBestGroupId cells cur ns = none ∨
    ∃ n ∈ ns, n.groupId = pickBestGroupId cells cur ns := by
  rw [pickBestGroupId]
  rcases pickBest_fold_mem cells cur ns (none, posInf) with h | h
  · exact Or.inl h
  · exact Or.inr h

/-- All group ids assigned so far are `none` or `0` (the invariant that
drives the degenerate-input claims: with at most one containing rect, group
`0` is the only group that can ever be assigned). -/
def GidOk (ws : List WorkRect) : Prop := ∀ w ∈ ws, w.groupId = none ∨ w.groupId = some 0

theorem passStep_gid (cells : List CellContent) (st : PassState) (r : WorkRect)
    (h : GidOk st.workRects) : GidOk (passStep cells st r).workRects := by
  intro w hw
  rw [passStep] at hw
  rcases hfind : st.workRects.find? (fun wr => wr.cellId == r.cellId) with _ | cur
  · rw [hfind] at hw
    exact h w hw
  · rw [hfind] at hw
    dsimp only at hw
    split at hw
    · exact h w hw
    · split at hw
      · exact h w hw
      · dsimp only at hw
        rcases updateFirst_mem _ _ _ w hw with h' | ⟨u, hu, rfl⟩
        · exact h w h'
        · dsimp only
          cases hnb : (st.workRects.filter fun other =>
              other.merged && areAdjacent cur.toCellContent other.toCellContent) with
          | nil =>
            exact Or.inl rfl
          | cons n ns =>
            cases ns with
            | nil =>
              show n.groupId = none ∨ n.groupId = some 0
              have hn : n ∈ st.workRects := by
                have : n ∈ st.workRects.filter fun other =>
                    other.merged && areAdjacent cur.toCellContent other.toCellContent := by
                  rw [hnb]; exact List.mem_cons_self _ _
                exact List.mem_of_mem_filter this
              exact h n hn
            | cons m ms =>
              show pickBestGroupId cells cur (n :: m :: ms) = none ∨
                pickBestGroupId cells cur (n :: m :: ms) = some 0
              rcases pickBestGroupId_mem cells cur (n :: m :: ms) with hp | ⟨x, hx, hgx⟩
              · rw [hp]; exact Or.inl rfl
              · have hxm : x ∈ st.workRects := by
                  have : x ∈ st.workRects.filter fun other =>
                      other.merged && areAdjacent cur.toCellContent other.toCellContent := by
                    rw [hnb]; exact hx
                  exact List.mem_of_mem_filter this
                rw [← hgx]
                exact h x hxm

theorem runPass_fold_gid (cells : List CellContent) :
    ∀ (lst : List WorkRect) (st : PassState), GidOk st.workRects →
      GidOk (lst.foldl (passStep cells) st).workRects := by
  intro lst
  induction lst with
  | nil => intro st h; exact h
  | cons r lst ih =>
    intro st h
    exact ih (passStep cells st r) (passStep_gid cells st r h)

theorem mergeLoop_gid (cells : List CellContent) :
    ∀ (fuel : ℕ) (ws lst : List WorkRect), GidOk ws →
      GidOk (mergeLoop cells fuel ws lst) := by
  intro fuel
  induction fuel with
  | zero => intro ws lst h; exact h
  | succ n ih =>
    intro ws lst h
    rw [mergeLoop]
    split
    · exact h
    · have hpass : GidOk (runPass cells ws lst).workRects :=
        runPass_fold_gid cells lst ⟨ws, [], false⟩ h
      dsimp only
      split
      · exact ih _ _ hpass
      · exact hpass

theorem mergeGridRects_small_gid (vs : List Line) (gr crs cells : List CellContent)
    (hlen : crs.length ≤ 1) :
    ∀ g ∈ (mergeGridRects vs gr crs cells).groupedRects, g.groupId = 0 := by
  intro g hg
  rw [mergeGridRects] at hg
  dsimp only at hg
  rcases List.mem_filterMap.mp hg with ⟨w, hw, hmap⟩
  have hbase : GidOk (gr.map (initWorkRect vs)) := by
    intro w hw
    rcases List.mem_map.mp hw with ⟨r, _, rfl⟩
    exact Or.inl rfl
  have hseed : GidOk (crs.enum.foldl seedStep (gr.map (initWorkRect vs))) := by
    rcases crs with _ | ⟨cr, crs'⟩
    · exact hbase
    · rcases crs' with _ | ⟨c2, rest⟩
      · intro w hw
        have h1 : List.enum [cr] = [(0, cr)] := rfl
        rw [h1] at hw
        rw [List.foldl_cons, List.foldl_nil] at hw
        rw [seedStep] at hw
        rcases updateFirst_mem _ _ _ w hw with h' | ⟨u, _, rfl⟩
        · exact hbase w h'
        · exact Or.inr rfl
      · simp at hlen
  have hP : GidOk (mergeLoop cells
      (sortByMinDist ((crs.enum.foldl seedStep (gr.map (initWorkRect vs))).filter
        fun r => !r.merged)).length
      (crs.enum.foldl seedStep (gr.map (initWorkRect vs)))
      (sortByMinDist ((crs.enum.foldl seedStep (gr.map (initWorkRect vs))).filter
        fun r => !r.merged))) := mergeLoop_gid cells _ _ _ hseed
  rcases hP w hw with hnone | hzero
  · rw [hnone] at hmap
    simp at hmap
  · rw [hzero] at hmap
    simp only [Option.map_some'] at hmap
    simp only [Option.some.injEq] at hmap
    rw [← hmap]

theorem mem_orderedPairs : ∀ (l : List α) (p : α × α), p ∈ orderedPairs l → p.1 ∈ l ∧ p.2 ∈ l := by
  intro l
  induction l with
  | nil => intro p hp; simp [orderedPairs] at hp
  | cons x xs ih =>
    intro p hp
    rw [orderedPairs] at hp
    rcases List.mem_append.mp hp with h | h
    · rcases List.mem_map.mp h with ⟨y, hy, rfl⟩
      exact ⟨List.mem_cons_self _ _, List.mem_cons_of_mem _ hy⟩
    · obtain ⟨h1, h2⟩ := ih p h
      exact ⟨List.mem_cons_of_mem _ h1, List.mem_cons_of_mem _ h2⟩

theorem buildOutline_const_empty (wr : List GroupedRect) (ox oy : JsNum)
    (h : ∀ a ∈ wr, ∀ b ∈ wr, a.groupId = b.groupId) :
    buildOutline wr ox oy = [] := by
  rw [buildOutline]
  have hfold : (orderedPairs wr).foldl outlinePairStep [] = ([] : SegMap) := by
    have aux : ∀ (prs : List (GroupedRect × GroupedRect)),
        (∀ pr ∈ prs, pr.1.groupId = pr.2.groupId) →
        ∀ m : SegMap, prs.foldl outlinePairStep m = m := by
      intro prs
      induction prs with
      | nil => intro _ m; rfl
      | cons pr prs ih =>
        intro hprs m
        rw [List.foldl_cons]
        have hstep : outlinePairStep m pr = m := by
          rw [outlinePairStep]
          have : (pr.1.groupId == pr.2.groupId) = true :=
            beq_iff_eq.mpr (hprs pr (List.mem_cons_self _ _))
          rw [this]
          simp
        rw [hstep]
        exact ih (fun q hq => hprs q (List.mem_cons_of_mem _ hq)) m
    refine aux _ ?_ []
    intro pr hpr
    obtain ⟨h1, h2⟩ := mem_orderedPairs wr pr hpr
    exact h pr.1 h1 pr.2 h2
  rw [hfold]
  rfl

theorem debug_single_outline_empty (c : CellContentInput) (cw ch : Option JsNum) :
    (calculateCellBoundariesDebug [c] cw ch).outlineLines = [] := by
  rw [calculateCellBoundariesDebug]
  dsimp only
  apply buildOutline_const_empty
  intro a ha b hb
  have hlen : ∀ (A : List Line) (C : List CellContent) (W H : JsNum),
      (buildGrid A C W H).cellContainingRects.length = C.length := by
    intro A C W H
    rw [buildGrid]
    dsimp only
    exact List.length_map _ _
  have ha0 := mergeGridRects_small_gid _ _ _ _ (by rw [hlen]; simp) a ha
  have hb0 := mergeGridRects_small_gid _ _ _ _ (by rw [hlen]; simp) b hb
  rw [ha0, hb0]

/-- C7: for the empty input and for every single-rectangle input,
`calculateCellBoundaries` does not fail (it is a total function in this
embedding, as in the source, which has no throw path) and returns the
empty segment list. -/
theorem c7_degenerate_inputs_empty_output :
    calculateCellBoundaries [] = [] ∧
    ∀ r : RectInput, calculateCellBoundaries [r] = [] := by
  constructor
  · decide
  · intro r
    rw [calculateCellBoundaries]
    rw [show (List.map (fun c => CellContentInput.mk c.minX c.minY (jsSub c.maxX c.minX)
        (jsSub c.maxY c.minY)) [r]) = [CellContentInput.mk r.minX r.minY (jsSub r.maxX r.minX)
        (jsSub r.maxY r.minY)] from rfl]
    rw [debug_single_outline_empty]
    rfl

theorem passStep_measure (cells : List CellContent) (st : PassState) (r : WorkRect) :
    (passStep cells st r).remainingAfterPass.length +
      (if (passStep cells st r).keepProcessing then 1 else 0) ≤
    st.remainingAfterPass.length + (if st.keepProcessing then 1 else 0) + 1 := by
  rw [passStep]
  cases hfind : st.workRects.find? (fun wr => wr.cellId == r.cellId) with
  | none => dsimp only; omega
  | some cur =>
    dsimp only
    split
    · omega
    · split
      · dsimp only
        simp only [List.length_append, List.length_cons, List.length_nil]
        omega
      · dsimp only
        simp only [if_pos rfl, if_true]
        omega

theorem runPass_fold_measure (cells : List CellContent) :
    ∀ (lst : List WorkRect) (st : PassState),
      (lst.foldl (passStep cells) st).remainingAfterPass.length +
        (if (lst.foldl (passStep cells) st).keepProcessing then 1 else 0) ≤
      st.remainingAfterPass.length + (if st.keepProcessing then 1 else 0) + lst.length := by
  intro lst
  induction lst with
  | nil => intro st; simp
  | cons r lst ih =>
    intro st
    rw [List.foldl_cons]
    have h1 := ih (passStep cells st r)
    have h2 := passStep_measure cells st r
    simp only [List.length_cons]
    omega

theorem runPass_progress (cells : List CellContent) (ws lst : List WorkRect)
    (h : (runPass cells ws lst).keepProcessing = true) :
    (runPass cells ws lst).remainingAfterPass.length < lst.length := by
  have := runPass_fold_measure cells lst ⟨ws, [], false⟩
  rw [runPass] at h ⊢
  rw [h] at this
  simp at this
  omega

theorem mergeLoop_nil (cells : List CellContent) :
    ∀ (fuel : ℕ) (ws : List WorkRect), mergeLoop cells fuel ws [] = ws := by
  intro fuel ws
  cases fuel with
  | zero => rfl
  | succ n => rw [mergeLoop]; simp

theorem sortByMinDist_length (l : List WorkRect) :
    (sortByMinDist l).length = l.length :=
  (jsSortBy_perm _ l).length_eq

theorem mergeLoop_fuel_sufficient (cells : List CellContent) :
    ∀ (N : ℕ) (ws lst : List WorkRect), lst.length ≤ N → ∀ k : ℕ,
      mergeLoop cells (N + k) ws lst = mergeLoop cells N ws lst := by
  intro N
  induction N using Nat.strong_induction_on with
  | _ N ih =>
    intro ws lst hlen k
    rcases lst with _ | ⟨r, rest⟩
    · rw [mergeLoop_nil, mergeLoop_nil]
    · rcases N with _ | M
      · simp at hlen
      · have hNk : M + 1 + k = (M + k) + 1 := by omega
        rw [hNk, mergeLoop, mergeLoop]
        simp only [List.isEmpty_cons, Bool.false_eq_true, if_false]
        split
        · rename_i hkp
          have hrem : (runPass cells ws (r :: rest)).remainingAfterPass.length <
              (r :: rest).length := runPass_progress cells ws _ hkp
          have hlen2 : (sortByMinDist (runPass cells ws (r :: rest)).remainingAfterPass).length ≤ M := by
            rw [sortByMinDist_length]
            simp only [List.length_cons] at hrem hlen
            omega
          set L := sortByMinDist (runPass cells ws (r :: rest)).remainingAfterPass with hL
          have e1 : M + k = L.length + (M + k - L.length) := by omega
          have e2 : M = L.length + (M - L.length) := by omega
          rw [e1, ih L.length (by omega) _ L (le_refl _) (M + k - L.length),
              e2, ih L.length (by omega) _ L (le_refl _) (M - L.length)]
        · rfl

/-- C9: the region-growth loop of the region merger terminates — each full
pass that sets `keepProcessing` strictly shrinks the unmerged processing
list, so the fuel used at the call site (the length of the initial
processing list) is enough: adding any extra fuel to `mergeLoop` cannot
change its result, i.e. the loop reaches its fixed point within at most as
many passes as there are grid rects and never runs forever. -/
theorem c9_region_growth_terminates (cells : List CellContent) :
    (∀ ws lst : List WorkRect, (runPass cells ws lst).keepProcessing = true →
      (runPass cells ws lst).remainingAfterPass.length < lst.length) ∧
    (∀ (ws lst : List WorkRect) (k : ℕ),
      mergeLoop cells (lst.length + k) ws lst = mergeLoop cells lst.length ws lst) := by
  constructor
  · exact fun ws lst h => runPass_progress cells ws lst h
  · exact fun ws lst k => mergeLoop_fuel_sufficient cells lst.length ws lst (le_refl _) k


/-- C9 (witness): the progress half of the termination theorem applied to a
concrete pass in which an unmerged rect adjacent to a merged one gets
merged, so the pass reports progress and the remaining list shrinks. -/
theorem c9_witness :
    (runPass []
      [⟨⟨CellId.gridRect 0, jq 0, jq 0, jq 100, jq 100⟩, true, some 0, posInf⟩,
       ⟨⟨CellId.gridRect 1, jq 100, jq 0, jq 100, jq 100⟩, false, none, posInf⟩]
      [⟨⟨CellId.gridRect 1, jq 100, jq 0, jq 100, jq 100⟩, false, none, posInf⟩]).remainingAfterPass.length <
    [(⟨⟨CellId.gridRect 1, jq 100, jq 0, jq 100, jq 100⟩, false, none, posInf⟩ : WorkRect)].length :=
  (c9_region_growth_terminates []).1
    [⟨⟨CellId.gridRect 0, jq 0, jq 0, jq 100, jq 100⟩, true, some 0, posInf⟩,
     ⟨⟨CellId.gridRect 1, jq 100, jq 0, jq 100, jq 100⟩, false, none, posInf⟩]
    [⟨⟨CellId.gridRect 1, jq 100, jq 0, jq 100, jq 100⟩, false, none, posInf⟩]
    (by decide)

/-! ## The merge-step group choice (C6) -/

/-- The candidate list of the multi-neighbour group choice: each
neighbour's group id paired with the edge-to-edge distance from the rect
being merged to that group's original cell. -/

def neighbourCandidates (cells : List CellContent) (cur : WorkRect)
    (ns : List WorkRect) : List (ℕ × JsNum) :=
  ns.filterMap fun n => n.groupId.map fun g =>
    (g, edgeToEdgeDistance cur.toCellContent (cells.getD g dummyCell))

def candStep (st : Option ℕ × JsNum) (gd : ℕ × JsNum) : Option ℕ × JsNum :=
  if jsLtb gd.2 st.2 then (some gd.1, gd.2)
  else if jsEqb gd.2 st.2 then
    match st.1 with
    | none => (some gd.1, st.2)
    | some b => (some (if gd.1 < b then gd.1 else b), st.2)
  else st

def LexBest (g₁ : ℕ) (q₁ : ℚ) (gd : ℕ × JsNum) : Prop :=
  jsLtb (fin q₁) gd.2 = true ∨ (fin q₁ = gd.2 ∧ g₁ ≤ gd.1)

theorem pickBest_fold_eq_cands (cells : List CellContent) (cur : WorkRect) :
    ∀ (ns : List WorkRect) (acc : Option ℕ × JsNum),
      ns.foldl (pickBestStep cells cur) acc =
      (neighbourCandidates cells cur ns).foldl candStep acc := by
  intro ns
  induction ns with
  | nil => intro acc; rfl
  | cons n ns ih =>
    intro acc
    rw [List.foldl_cons]
    cases hg : n.groupId with
    | none =>
      have h1 : pickBestStep cells cur acc n = acc := by
        rw [pickBestStep, hg]
      have h2 : neighbourCandidates cells cur (n :: ns) = neighbourCandidates cells cur ns := by
        rw [neighbourCandidates, List.filterMap_cons, hg]
        rfl
      rw [h1, h2, ih]
    | some g =>
      have h2 : neighbourCandidates cells cur (n :: ns) =
          (g, edgeToEdgeDistance cur.toCellContent (cells.getD g dummyCell)) ::
            neighbourCandidates cells cur ns := by
        rw [neighbourCandidates, List.filterMap_cons, hg]
        rfl
      have h1 : pickBestStep cells cur acc n =
          candStep acc (g, edgeToEdgeDistance cur.toCellContent (cells.getD g dummyCell)) := by
        rw [pickBestStep, hg, candStep]
      rw [h1, h2, List.foldl_cons, ih]

theorem candStep_fold_argmin :
    ∀ (cands : List (ℕ × JsNum)), (∀ gd ∈ cands, ∃ q, gd.2 = fin q) →
      ∀ (g₀ : ℕ) (q₀ : ℚ),
      ∃ g₁ q₁, cands.foldl candStep (some g₀, fin q₀) = (some g₁, fin q₁) ∧
        (g₁, (fin q₁ : JsNum)) ∈ ((g₀, (fin q₀ : JsNum)) :: cands) ∧
        ∀ gd ∈ ((g₀, (fin q₀ : JsNum)) :: cands), LexBest g₁ q₁ gd := by
  intro cands
  induction cands with
  | nil =>
    intro _ g₀ q₀
    exact ⟨g₀, q₀, rfl, List.mem_cons_self _ _, by
      intro gd hgd
      rcases List.mem_singleton.mp hgd with rfl
      exact Or.inr ⟨rfl, le_refl _⟩⟩
  | cons gd0 cands ih =>
    intro hfin g₀ q₀
    obtain ⟨q, hq⟩ := hfin gd0 (List.mem_cons_self _ _)
    obtain ⟨g, rfl⟩ : ∃ g, gd0 = (g, (fin q : JsNum)) := by
      rcases gd0 with ⟨g, d⟩
      exact ⟨g, by rw [← hq]⟩
    have hfin' : ∀ gd ∈ cands, ∃ q, gd.2 = fin q :=
      fun gd hgd => hfin gd (List.mem_cons_of_mem _ hgd)
    rw [List.foldl_cons]
    rcases lt_trichotomy q q₀ with hlt | heq | hgt
    · have hstep : candStep (some g₀, fin q₀) (g, fin q) = (some g, fin q) := by
        rw [candStep]
        simp [jsLtb, hlt]
      rw [hstep]
      obtain ⟨g₁, q₁, hfold, hmem, hbest⟩ := ih hfin' g q
      refine ⟨g₁, q₁, hfold, ?_, ?_⟩
      · rcases List.mem_cons.mp hmem with h | h
        · exact List.mem_cons_of_mem _ (h ▸ List.mem_cons_self _ _)
        · exact List.mem_cons_of_mem _ (List.mem_cons_of_mem _ h)
      · intro gd hgd
        rcases List.mem_cons.mp hgd with rfl | hgd'
        · have h1 := hbest (g, fin q) (List.mem_cons_self _ _)
          rcases h1 with h1 | ⟨h1, _⟩
          · refine Or.inl ?_
            simp only [jsLtb, decide_eq_true_eq] at h1 ⊢
            linarith
          · refine Or.inl ?_
            have hq1 : q₁ = q := JsNum.fin.inj h1
            simp only [jsLtb, decide_eq_true_eq]
            linarith
        · exact hbest gd (by
            rcases List.mem_cons.mp hgd' with rfl | h
            · exact List.mem_cons_self _ _
            · exact List.mem_cons_of_mem _ h)
    · subst heq
      have hstep : candStep (some g₀, fin q) (g, fin q) =
          (some (if g < g₀ then g else g₀), fin q) := by
        rw [candStep]
        simp [jsLtb, jsEqb]
      rw [hstep]
      obtain ⟨g₁, q₁, hfold, hmem, hbest⟩ := ih hfin' (if g < g₀ then g else g₀) q
      refine ⟨g₁, q₁, hfold, ?_, ?_⟩
      · rcases List.mem_cons.mp hmem with h | h
        · by_cases hc : g < g₀
          · rw [if_pos hc] at h
            rw [h]
            exact List.mem_cons_of_mem _ (List.mem_cons_self _ _)
          · rw [if_neg hc] at h
            rw [h]
            exact List.mem_cons_self _ _
        · exact List.mem_cons_of_mem _ (List.mem_cons_of_mem _ h)
      · intro gd hgd
        have hmin := hbest ((if g < g₀ then g else g₀), fin q) (List.mem_cons_self _ _)
        rcases List.mem_cons.mp hgd with rfl | hgd'
        · rcases hmin with h | ⟨h1, h2⟩
          · exact Or.inl h
          · right
            refine ⟨h1, le_trans h2 ?_⟩
            split <;> omega
        · rcases List.mem_cons.mp hgd' with rfl | h
          · rcases hmin with h | ⟨h1, h2⟩
            · exact Or.inl h
            · right
              refine ⟨h1, le_trans h2 ?_⟩
              split <;> omega
          · exact hbest gd (List.mem_cons_of_mem _ h)
    · have hstep : candStep (some g₀, fin q₀) (g, fin q) = (some g₀, fin q₀) := by
        rw [candStep]
        have h1 : jsLtb (fin q) (fin q₀) = false := by
          simp only [jsLtb, decide_eq_false_iff_not]
          linarith
        have h2 : jsEqb (fin q) (fin q₀) = false := by
          simp only [jsEqb, decide_eq_false_iff_not]
          intro h
          exact absurd h (by linarith)
        rw [h1, h2]
        simp
      rw [hstep]
      obtain ⟨g₁, q₁, hfold, hmem, hbest⟩ := ih hfin' g₀ q₀
      refine ⟨g₁, q₁, hfold, ?_, ?_⟩
      · rcases List.mem_cons.mp hmem with h | h
        · exact h ▸ List.mem_cons_self _ _
        · exact List.mem_cons_of_mem _ (List.mem_cons_of_mem _ h)
      · intro gd hgd
        have hacc := hbest (g₀, fin q₀) (List.mem_cons_self _ _)
        rcases List.mem_cons.mp hgd with rfl | hgd'
        · exact hbest _ (List.mem_cons_self _ _)
        · rcases List.mem_cons.mp hgd' with rfl | h
          · refine Or.inl ?_
            rcases hacc with h | ⟨h1, _⟩
            · simp only [jsLtb, decide_eq_true_eq] at h ⊢
              linarith
            · have hq1 : q₁ = q₀ := JsNum.fin.inj h1
              simp only [jsLtb, decide_eq_true_eq]
              linarith
          · exact hbest gd (List.mem_cons_of_mem _ h)

theorem pickBestGroupId_argmin (cells : List CellContent) (cur : WorkRect)
    (ns : List WorkRect)
    (hfin : ∀ gd ∈ neighbourCandidates cells cur ns, ∃ q, gd.2 = fin q)
    (hne : neighbourCandidates cells cur ns ≠ []) :
    ∃ g₁ q₁, pickBestGroupId cells cur ns = some g₁ ∧
      (g₁, (fin q₁ : JsNum)) ∈ neighbourCandidates cells cur ns ∧
      ∀ gd ∈ neighbourCandidates cells cur ns, LexBest g₁ q₁ gd := by
  rw [pickBestGroupId, pickBest_fold_eq_cands]
  rcases hcands : neighbourCandidates cells cur ns with _ | ⟨⟨gc, dc⟩, rest⟩
  · exact absurd hcands hne
  · have hq : ∃ q, dc = fin q := by
      have := hfin (gc, dc) (by rw [hcands]; exact List.mem_cons_self _ _)
      simpa using this
    obtain ⟨qc, rfl⟩ := hq
    rw [List.foldl_cons]
    have hstep : candStep (none, posInf) (gc, fin qc) = (some gc, fin qc) := by
      rw [candStep]
      simp [jsLtb]
    rw [hstep]
    have hfin' : ∀ gd ∈ rest, ∃ q, gd.2 = fin q := fun gd hgd =>
      hfin gd (by rw [hcands]; exact List.mem_cons_of_mem _ hgd)
    obtain ⟨g₁, q₁, hfold, hmem, hbest⟩ := candStep_fold_argmin rest hfin' gc qc
    exact ⟨g₁, q₁, by rw [hfold], hmem, hbest⟩

/-- **C6.** During region growth, a merge step on an unmerged rect `cur`
with a nonempty list `NB` of merged adjacent neighbours marks it merged and
assigns `chooseGroupId`: with exactly one neighbour the neighbour's
`groupId` is inherited; with two or more, the assigned group is the
candidate with the smallest edge-to-edge distance from `cur` to the group's
original cell, ties broken by the smaller numeric group id. -/
theorem c6_merge_assigns_nearest_group (cellContents : List CellContent)
    (st : PassState) (r cur : WorkRect) (NB : List WorkRect)
    (hfind : st.workRects.find? (fun wr => wr.cellId == r.cellId) = some cur)
    (hunmerged : cur.merged = false)
    (hNB : NB = st.workRects.filter fun other =>
      other.merged && areAdjacent cur.toCellContent other.toCellContent)
    (hne : NB ≠ [])
    (hfin : ∀ gd ∈ neighbourCandidates cellContents cur NB, ∃ q, gd.2 = fin q)
    (hgids : ∀ n ∈ NB, n.groupId ≠ none) :
    passStep cellContents st r =
      { st with
        workRects := updateFirst (fun wr => wr.cellId == r.cellId)
          (fun wr => { wr with merged := true,
                               groupId := chooseGroupId cellContents cur NB }) st.workRects,
        keepProcessing := true } ∧
    (∀ n, NB = [n] → chooseGroupId cellContents cur NB = n.groupId) ∧
    (2 ≤ NB.length →
      ∃ g₁ q₁, chooseGroupId cellContents cur NB = some g₁ ∧
        (g₁, (fin q₁ : JsNum)) ∈ neighbourCandidates cellContents cur NB ∧
        ∀ gd ∈ neighbourCandidates cellContents cur NB, LexBest g₁ q₁ gd) := by
  have hie : NB.isEmpty = false := by
    cases NB with
    | nil => exact absurd rfl hne
    | cons n ns => rfl
  refine ⟨?_, ?_, ?_⟩
  · rw [passStep, hfind]
    dsimp only
    rw [hunmerged]
    simp only [Bool.false_eq_true, if_false]
    rw [← hNB, hie]
    simp only [Bool.false_eq_true, if_false]
  · intro n hn
    rw [hn]
    rfl
  · intro hlen
    cases NB with
    | nil => exact absurd rfl hne
    | cons n ns =>
      cases ns with
      | nil => simp at hlen
      | cons m ms =>
        have hcne : neighbourCandidates cellContents cur (n :: m :: ms) ≠ [] := by
          cases hg : n.groupId with
          | none => exact absurd hg (hgids n (List.mem_cons_self _ _))
          | some g =>
            rw [neighbourCandidates, List.filterMap_cons, hg]
            exact List.cons_ne_nil _ _
        have h := pickBestGroupId_argmin cellContents cur (n :: m :: ms) hfin hcne
        obtain ⟨g₁, q₁, hpick, hmem, hbest⟩ := h
        exact ⟨g₁, q₁, by
          show pickBestGroupId cellContents cur (n :: m :: ms) = some g₁
          exact hpick, hmem, hbest⟩

/-- C6 (witness): the merge-step theorem applied to a concrete state — an
unmerged grid rect with two merged adjacent neighbours of groups `0`
(distance 50) and `1` (distance 60) is marked merged with the chosen group. -/
theorem c6_witness :
    passStep
      [⟨CellId.cell 0, jq 0, jq 0, jq 100, jq 100⟩,
       ⟨CellId.cell 1, jq 310, jq 0, jq 100, jq 100⟩]
      (PassState.mk
        [⟨⟨CellId.gridRect 0, jq 100, jq 0, jq 50, jq 100⟩, true, some 0, posInf⟩,
         ⟨⟨CellId.gridRect 1, jq 250, jq 0, jq 50, jq 100⟩, true, some 1, posInf⟩,
         ⟨⟨CellId.gridRect 2, jq 150, jq 0, jq 100, jq 100⟩, false, none, posInf⟩] [] false)
      ⟨⟨CellId.gridRect 2, jq 150, jq 0, jq 100, jq 100⟩, false, none, posInf⟩ =
    { (PassState.mk
        [⟨⟨CellId.gridRect 0, jq 100, jq 0, jq 50, jq 100⟩, true, some 0, posInf⟩,
         ⟨⟨CellId.gridRect 1, jq 250, jq 0, jq 50, jq 100⟩, true, some 1, posInf⟩,
         ⟨⟨CellId.gridRect 2, jq 150, jq 0, jq 100, jq 100⟩, false, none, posInf⟩] [] false) with
      workRects := updateFirst
        (fun wr => wr.cellId ==
          (⟨⟨CellId.gridRect 2, jq 150, jq 0, jq 100, jq 100⟩, false, none, posInf⟩ : WorkRect).cellId)
        (fun wr => { wr with
                     merged := true,
                     groupId := chooseGroupId
                       [⟨CellId.cell 0, jq 0, jq 0, jq 100, jq 100⟩,
                        ⟨CellId.cell 1, jq 310, jq 0, jq 100, jq 100⟩]
                       ⟨⟨CellId.gridRect 2, jq 150, jq 0, jq 100, jq 100⟩, false, none, posInf⟩
                       [⟨⟨CellId.gridRect 0, jq 100, jq 0, jq 50, jq 100⟩, true, some 0, posInf⟩,
                        ⟨⟨CellId.gridRect 1, jq 250, jq 0, jq 50, jq 100⟩, true, some 1, posInf⟩] })
        [⟨⟨CellId.gridRect 0, jq 100, jq 0, jq 50, jq 100⟩, true, some 0, posInf⟩,
         ⟨⟨CellId.gridRect 1, jq 250, jq 0, jq 50, jq 100⟩, true, some 1, posInf⟩,
         ⟨⟨CellId.gridRect 2, jq 150, jq 0, jq 100, jq 100⟩, false, none, posInf⟩],
      keepProcessing := true } :=
  (c6_merge_assigns_nearest_group
    [⟨CellId.cell 0, jq 0, jq 0, jq 100, jq 100⟩,
     ⟨CellId.cell 1, jq 310, jq 0, jq 100, jq 100⟩]
    (PassState.mk
      [⟨⟨CellId.gridRect 0, jq 100, jq 0, jq 50, jq 100⟩, true, some 0, posInf⟩,
       ⟨⟨CellId.gridRect 1, jq 250, jq 0, jq 50, jq 100⟩, true, some 1, posInf⟩,
       ⟨⟨CellId.gridRect 2, jq 150, jq 0, jq 100, jq 100⟩, false, none, posInf⟩] [] false)
    ⟨⟨CellId.gridRect 2, jq 150, jq 0, jq 100, jq 100⟩, false, none, posInf⟩
    ⟨⟨CellId.gridRect 2, jq 150, jq 0, jq 100, jq 100⟩, false, none, posInf⟩
    [⟨⟨CellId.gridRect 0, jq 100, jq 0, jq 50, jq 100⟩, true, some 0, posInf⟩,
     ⟨⟨CellId.gridRect 1, jq 250, jq 0, jq 50, jq 100⟩, true, some 1, posInf⟩]
    (by decide) (by decide) (by decide) (by decide)
    (by
      intro gd hgd
      have hcl : neighbourCandidates
          [⟨CellId.cell 0, jq 0, jq 0, jq 100, jq 100⟩,
           ⟨CellId.cell 1, jq 310, jq 0, jq 100, jq 100⟩]
          ⟨⟨CellId.gridRect 2, jq 150, jq 0, jq 100, jq 100⟩, false, none, posInf⟩
          [⟨⟨CellId.gridRect 0, jq 100, jq 0, jq 50, jq 100⟩, true, some 0, posInf⟩,
           ⟨⟨CellId.gridRect 1, jq 250, jq 0, jq 50, jq 100⟩, true, some 1, posInf⟩] =
          [(0, (fin 50 : JsNum)), (1, (fin 60 : JsNum))] := by decide
      rw [hcl] at hgd
      rcases List.mem_cons.mp hgd with rfl | hgd
      · exact ⟨50, rfl⟩
      · rcases List.mem_singleton.mp hgd with rfl
        exact ⟨60, rfl⟩)
    (by decide)).1

/-! ## Order-independence of the midline stage (C3) -/

theorem jsLeb_total (a b : JsNum) (ha : a ≠ nan) (hb : b ≠ nan) :
    jsLeb a b = true ∨ jsLeb b a = true := by
  cases a <;> cases b <;> simp_all [jsLeb]
  exact le_total _ _

theorem jsLeb_antisymm (a b : JsNum) (hab : jsLeb a b = true) (hba : jsLeb b a = true) :
    a = b := by
  cases a <;> cases b <;> simp_all [jsLeb]
  exact le_antisymm hab hba

theorem jsLeb_trans (a b c : JsNum) (hab : jsLeb a b = true) (hbc : jsLeb b c = true) :
    jsLeb a c = true := by
  cases a <;> cases b <;> cases c <;> simp_all [jsLeb]
  exact le_trans hab hbc

theorem jsMin_nan_left (b : JsNum) : jsMin nan b = nan := by
  rw [jsMin]
  simp

theorem jsMin_nan_right (a : JsNum) : jsMin a nan = nan := by
  rw [jsMin]
  simp

theorem jsMin_ne_nan (a b : JsNum) (ha : a ≠ nan) (hb : b ≠ nan) : jsMin a b ≠ nan := by
  rw [jsMin]
  simp only [ha, hb, or_self, if_false]
  split <;> assumption

theorem jsMin_comm (a b : JsNum) : jsMin a b = jsMin b a := by
  by_cases ha : a = nan
  · rw [ha, jsMin_nan_left, jsMin_nan_right]
  · by_cases hb : b = nan
    · rw [hb, jsMin_nan_left, jsMin_nan_right]
    · rw [jsMin, jsMin,
        if_neg (show ¬(a = nan ∨ b = nan) by simp [ha, hb]),
        if_neg (show ¬(b = nan ∨ a = nan) by simp [ha, hb])]
      by_cases hab : jsLeb a b = true <;> by_cases hba : jsLeb b a = true
      · rw [if_pos hab, if_pos hba]
        exact jsLeb_antisymm a b hab hba
      · rw [if_pos hab, if_neg hba]
      · rw [if_neg hab, if_pos hba]
      · rcases jsLeb_total a b ha hb with h | h
        · exact absurd h hab
        · exact absurd h hba

theorem jsMin_assoc (a b c : JsNum) : jsMin (jsMin a b) c = jsMin a (jsMin b c) := by
  by_cases ha : a = nan
  · rw [ha, jsMin_nan_left, jsMin_nan_left, jsMin_nan_left]
  · by_cases hb : b = nan
    · rw [hb, jsMin_nan_right, jsMin_nan_left, jsMin_nan_right]
    · by_cases hc : c = nan
      · rw [hc, jsMin_nan_right, jsMin_nan_right, jsMin_nan_right]
      · have ch : ∀ x y : JsNum, x ≠ nan → y ≠ nan →
            jsMin x y = if jsLeb x y then x else y := by
          intro x y hx hy
          rw [jsMin, if_neg (show ¬(x = nan ∨ y = nan) by simp [hx, hy])]
        rw [ch a b ha hb, ch b c hb hc]
        by_cases h1 : jsLeb a b = true <;> by_cases h2 : jsLeb b c = true
        · rw [if_pos h1, if_pos h2, ch a c ha hc, if_pos (jsLeb_trans a b c h1 h2),
            ch a b ha hb, if_pos h1]
        · rw [if_pos h1, if_neg h2]
        · rw [if_neg h1, if_pos h2, ch b c hb hc, if_pos h2, ch a b ha hb, if_neg h1]
        · rw [if_neg h1, if_neg h2, ch b c hb hc, if_neg h2, ch a c ha hc]
          by_cases h3 : jsLeb a c = true
          · rw [if_pos h3]
            have hba : jsLeb b a = true := (jsLeb_total a b ha hb).resolve_left h1
            have hcb : jsLeb c b = true := (jsLeb_total b c hb hc).resolve_left h2
            exact (jsLeb_antisymm a c h3 (jsLeb_trans c b a hcb hba)).symm
          · rw [if_neg h3]

theorem jsMin_right_comm (m x y : JsNum) : jsMin (jsMin m x) y = jsMin (jsMin m y) x := by
  rw [jsMin_assoc, jsMin_assoc, jsMin_comm x y]

theorem jsMax_nan_left (b : JsNum) : jsMax nan b = nan := by
  rw [jsMax]
  simp

theorem jsMax_nan_right (a : JsNum) : jsMax a nan = nan := by
  rw [jsMax]
  simp

theorem jsMax_comm (a b : JsNum) : jsMax a b = jsMax b a := by
  by_cases ha : a = nan
  · rw [ha, jsMax_nan_left, jsMax_nan_right]
  · by_cases hb : b = nan
    · rw [hb, jsMax_nan_left, jsMax_nan_right]
    · rw [jsMax, jsMax,
        if_neg (show ¬(a = nan ∨ b = nan) by simp [ha, hb]),
        if_neg (show ¬(b = nan ∨ a = nan) by simp [ha, hb])]
      by_cases hab : jsLeb a b = true <;> by_cases hba : jsLeb b a = true
      · rw [if_pos hab, if_pos hba]
        exact jsLeb_antisymm b a hba hab
      · rw [if_pos hab, if_neg hba]
      · rw [if_neg hab, if_pos hba]
      · rcases jsLeb_total a b ha hb with h | h
        · exact absurd h hab
        · exact absurd h hba

theorem jsMax_assoc (a b c : JsNum) : jsMax (jsMax a b) c = jsMax a (jsMax b c) := by
  by_cases ha : a = nan
  · rw [ha, jsMax_nan_left, jsMax_nan_left, jsMax_nan_left]
  · by_cases hb : b = nan
    · rw [hb, jsMax_nan_right, jsMax_nan_left, jsMax_nan_right]
    · by_cases hc : c = nan
      · rw [hc, jsMax_nan_right, jsMax_nan_right, jsMax_nan_right]
      · have ch : ∀ x y : JsNum, x ≠ nan → y ≠ nan →
            jsMax x y = if jsLeb x y then y else x := by
          intro x y hx hy
          rw [jsMax, if_neg (show ¬(x = nan ∨ y = nan) by simp [hx, hy])]
        have hne : ∀ x y : JsNum, x ≠ nan → y ≠ nan → jsMax x y ≠ nan := by
          intro x y hx hy
          rw [ch x y hx hy]
          split <;> assumption
        rw [ch a b ha hb, ch b c hb hc]
        by_cases h1 : jsLeb a b = true <;> by_cases h2 : jsLeb b c = true
        · rw [if_pos h1, if_pos h2, ch b c hb hc, if_pos h2, ch a c ha hc,
            if_pos (jsLeb_trans a b c h1 h2)]
        · rw [if_pos h1, if_neg h2, ch b c hb hc, if_neg h2, ch a b ha hb, if_pos h1]
        · rw [if_neg h1, if_pos h2]
        · rw [if_neg h1, if_neg h2, ch a b ha hb, if_neg h1, ch a c ha hc]
          by_cases h3 : jsLeb a c = true
          · rw [if_pos h3]
            have hba : jsLeb b a = true := (jsLeb_total a b ha hb).resolve_left h1
            have hcb : jsLeb c b = true := (jsLeb_total b c hb hc).resolve_left h2
            exact (jsLeb_antisymm a c h3 (jsLeb_trans c b a hcb hba)).symm
          · rw [if_neg h3]

theorem jsMax_right_comm (m x y : JsNum) : jsMax (jsMax m x) y = jsMax (jsMax m y) x := by
  rw [jsMax_assoc, jsMax_assoc, jsMax_comm x y]

theorem computeBounds_perm (l₁ l₂ : List Bounds) (h : l₁.Perm l₂) :
    computeBoundsFromCellContents l₁ = computeBoundsFromCellContents l₂ := by
  rw [computeBoundsFromCellContents, computeBoundsFromCellContents]
  refine h.foldl_eq' (fun x hx y hy z => ?_) _
  show Bounds.mk _ _ _ _ = Bounds.mk _ _ _ _
  rw [jsMin_right_comm, jsMin_right_comm z.minY, jsMax_right_comm, jsMax_right_comm z.maxY]

/-- Forget a cell's id, keeping only its coordinates. -/
def stripId (c : CellContent) : CellContentInput := ⟨c.x, c.y, c.width, c.height⟩

/-- The geometry of a midline: its orientation and endpoints (the running
id and the contributing cell ids forgotten). -/
def midlineGeom (m : Midline) : MidlineType × Point × Point := (m.type, m.start, m.end_)

/-- The midline geometries one ordered pair of cells contributes in
`computeMidlines.ts` (the id-free part of `midlinePairStep`). -/
def pairGeoms (containerWidth containerHeight : JsNum)
    (pr : CellContentInput × CellContentInput) : List (MidlineType × Point × Point) :=
  let cell1 := pr.1
  let cell2 := pr.2
  let cell1Right := jsAdd cell1.x cell1.width
  let cell2Right := jsAdd cell2.x cell2.width
  let cell1Bottom := jsAdd cell1.y cell1.height
  let cell2Bottom := jsAdd cell2.y cell2.height
  (if jsLtb cell1Right cell2.x || jsLtb cell2Right cell1.x then
    [(MidlineType.vertical,
      Point.mk (if jsLtb cell1Right cell2.x then jsDiv (jsAdd cell1Right cell2.x) (jq 2)
                else jsDiv (jsAdd cell2Right cell1.x) (jq 2)) (jq 0),
      Point.mk (if jsLtb cell1Right cell2.x then jsDiv (jsAdd cell1Right cell2.x) (jq 2)
                else jsDiv (jsAdd cell2Right cell1.x) (jq 2)) containerHeight)]
   else []) ++
  (if jsLtb cell1Bottom cell2.y || jsLtb cell2Bottom cell1.y then
    [(MidlineType.horizontal,
      Point.mk (jq 0) (if jsLtb cell1Bottom cell2.y then jsDiv (jsAdd cell1Bottom cell2.y) (jq 2)
                       else jsDiv (jsAdd cell2Bottom cell1.y) (jq 2)),
      Point.mk containerWidth (if jsLtb cell1Bottom cell2.y then jsDiv (jsAdd cell1Bottom cell2.y) (jq 2)
                               else jsDiv (jsAdd cell2Bottom cell1.y) (jq 2)))]
   else [])

theorem midlinePairStep_geom (cw ch : JsNum) (st : ℕ × List Midline)
    (pr : CellContent × CellContent) :
    (midlinePairStep cw ch st pr).2.map midlineGeom =
      st.2.map midlineGeom ++ pairGeoms cw ch (stripId pr.1, stripId pr.2) := by
  rw [midlinePairStep, pairGeoms]
  dsimp only [stripId]
  split_ifs <;> simp [midlineGeom]

theorem midlines_fold_geom (cw ch : JsNum) :
    ∀ (prs : List (CellContent × CellContent)) (st : ℕ × List Midline),
      (prs.foldl (midlinePairStep cw ch) st).2.map midlineGeom =
        st.2.map midlineGeom ++
          prs.flatMap fun pr => pairGeoms cw ch (stripId pr.1, stripId pr.2) := by
  intro prs
  induction prs with
  | nil => intro st; simp
  | cons pr prs ih =>
    intro st
    rw [List.foldl_cons, ih, midlinePairStep_geom, List.flatMap_cons, List.append_assoc]

theorem orderedPairs_map (f : α → β) :
    ∀ l : List α,
      orderedPairs (l.map f) = (orderedPairs l).map fun pr => (f pr.1, f pr.2) := by
  intro l
  induction l with
  | nil => rfl
  | cons x xs ih =>
    rw [List.map_cons, orderedPairs, orderedPairs, ih, List.map_append,
      List.map_map, List.map_map]
    rfl

theorem flatMap_map_comp (f : α → β) (g : β → List γ) :
    ∀ l : List α, (l.map f).flatMap g = l.flatMap fun a => g (f a) := by
  intro l
  induction l with
  | nil => rfl
  | cons x xs ih => rw [List.map_cons, List.flatMap_cons, List.flatMap_cons, ih]

theorem computeMidlines_geom (l : List CellContent) (cw ch : JsNum) :
    (computeMidlines l cw ch).map midlineGeom =
      (orderedPairs (l.map stripId)).flatMap (pairGeoms cw ch) := by
  rw [computeMidlines, midlines_fold_geom, orderedPairs_map, flatMap_map_comp]
  simp

/-- A well-formed input rectangle: finite coordinates, nonnegative width
and height. -/
def goodRect (c : CellContentInput) : Prop :=
  (∃ q, c.x = fin q) ∧ (∃ q, c.y = fin q) ∧
  (∃ q, c.width = fin q ∧ 0 ≤ q) ∧ (∃ q, c.height = fin q ∧ 0 ≤ q)

theorem pairGeoms_symm (cw ch : JsNum) (a b : CellContentInput)
    (ha : goodRect a) (hb : goodRect b) :
    pairGeoms cw ch (a, b) = pairGeoms cw ch (b, a) := by
  obtain ⟨⟨ax, hax⟩, ⟨ay, hay⟩, ⟨aw, haw, haw0⟩, ⟨ah, hah, hah0⟩⟩ := ha
  obtain ⟨⟨bx, hbx⟩, ⟨by', hby⟩, ⟨bw, hbw, hbw0⟩, ⟨bh, hbh, hbh0⟩⟩ := hb
  rw [pairGeoms, pairGeoms]
  dsimp only
  rw [hax, hay, haw, hah, hbx, hby, hbw, hbh]
  simp only [jsAdd, jsLtb, qadd_eq]
  by_cases h1 : ax + aw < bx <;> by_cases h2 : bx + bw < ax <;>
    by_cases h3 : ay + ah < by' <;> by_cases h4 : by' + bh < ay <;>
    first
      | (exfalso; linarith)
      | simp [h1, h2, h3, h4]

theorem orderedPairs_flatMap_perm {β : Type} (P : α → Prop) (f : α × α → List β)
    (hsym : ∀ a b, P a → P b → f (a, b) = f (b, a)) :
    ∀ {l₁ l₂ : List α}, l₁.Perm l₂ → (∀ a ∈ l₁, P a) →
      List.Perm ((orderedPairs l₁).flatMap f) ((orderedPairs l₂).flatMap f) := by
  intro l₁ l₂ hp
  induction hp with
  | nil => intro _; exact List.Perm.refl _
  | cons x h ih =>
    intro hP
    simp only [orderedPairs, List.flatMap_append]
    exact List.Perm.append ((h.map fun y => (x, y)).flatMap_right f)
      (ih fun a ha => hP a (List.mem_cons_of_mem _ ha))
  | swap x y l =>
    intro hP
    have hPy : P y := hP y (List.mem_cons_self _ _)
    have hPx : P x := hP x (List.mem_cons_of_mem _ (List.mem_cons_self _ _))
    simp only [orderedPairs, List.map_cons, List.cons_append, List.flatMap_cons,
      List.flatMap_append]
    rw [hsym y x hPy hPx]
    refine List.Perm.append_left _ ?_
    rw [← List.append_assoc, ← List.append_assoc]
    exact List.Perm.append_right _ List.perm_append_comm
  | trans h₁ h₂ ih₁ ih₂ =>
    intro hP
    exact (ih₁ hP).trans (ih₂ fun a ha => hP a (h₁.mem_iff.mpr ha))

theorem enum_map_coords (l : List CellContentInput) :
    ((l.enum.map fun pr =>
        CellContent.mk (CellId.cell pr.1) pr.2.x pr.2.y pr.2.width pr.2.height).map stripId)
      = l := by
  rw [List.map_map]
  have h : (stripId ∘ fun pr : ℕ × CellContentInput =>
      CellContent.mk (CellId.cell pr.1) pr.2.x pr.2.y pr.2.width pr.2.height) = Prod.snd := rfl
  rw [h, List.enum_map_snd]

/-- The container bounds of the debug pipeline, as a function of the raw
input rectangles. -/
def boundsOfInput (l : List CellContentInput) : Bounds :=
  computeBoundsFromCellContents (l.map fun c =>
    Bounds.mk c.x c.y (jsAdd c.x c.width) (jsAdd c.y c.height))

/-- The pipeline's translation to the origin, on id-free rectangles. -/
def offsetInput (ox oy : JsNum) (c : CellContentInput) : CellContentInput :=
  ⟨jsSub c.x ox, jsSub c.y oy, c.width, c.height⟩

/-- Translating a midline geometry back by the container offset. -/
def offsetGeom (ox oy : JsNum) (g : MidlineType × Point × Point) :
    MidlineType × Point × Point :=
  (g.1, offsetPoint g.2.1 ox oy, offsetPoint g.2.2 ox oy)

theorem debug_midline_geoms (l : List CellContentInput) :
    ((calculateCellBoundariesDebug l none none).midlines).map midlineGeom =
      ((orderedPairs (l.map (offsetInput (boundsOfInput l).minX (boundsOfInput l).minY))).flatMap
        (pairGeoms (jsSub (boundsOfInput l).maxX (boundsOfInput l).minX)
          (jsSub (boundsOfInput l).maxY (boundsOfInput l).minY))).map
        (offsetGeom (boundsOfInput l).minX (boundsOfInput l).minY) := by
  have hB : computeBoundsFromCellContents ((l.enum.map fun pr =>
      CellContent.mk (CellId.cell pr.1) pr.2.x pr.2.y pr.2.width pr.2.height).map fun c =>
      Bounds.mk c.x c.y (jsAdd c.x c.width) (jsAdd c.y c.height)) = boundsOfInput l := by
    rw [boundsOfInput]
    congr 1
    conv_rhs => rw [← enum_map_coords l, List.map_map]
    rfl
  have hCC : ∀ ox oy : JsNum, ((l.enum.map ((fun c : CellContent =>
      { c with x := jsSub c.x ox, y := jsSub c.y oy }) ∘ fun pr =>
      CellContent.mk (CellId.cell pr.1) pr.2.x pr.2.y pr.2.width pr.2.height)).map stripId)
      = l.map (offsetInput ox oy) := by
    intro ox oy
    conv_rhs => rw [← enum_map_coords l]
    simp only [List.map_map]
    rfl
  rw [calculateCellBoundariesDebug]
  dsimp only
  simp only [Option.getD_none]
  rw [hB, List.map_map, List.map_map]
  show (computeMidlines _ _ _).map (offsetGeom (boundsOfInput l).minX (boundsOfInput l).minY
    ∘ midlineGeom) = _
  rw [← List.map_map, computeMidlines_geom, hCC]

theorem goodRect_offset (ox oy : JsNum) (hox : ∃ q, ox = fin q) (hoy : ∃ q, oy = fin q)
    (c : CellContentInput) (hc : goodRect c) : goodRect (offsetInput ox oy c) := by
  obtain ⟨qx, rfl⟩ := hox
  obtain ⟨qy, rfl⟩ := hoy
  obtain ⟨⟨cx, hcx⟩, ⟨cy, hcy⟩, hw, hh⟩ := hc
  refine ⟨?_, ?_, hw, hh⟩
  · exact ⟨qadd cx (qneg qx), by rw [offsetInput, hcx]; rfl⟩
  · exact ⟨qadd cy (qneg qy), by rw [offsetInput, hcy]; rfl⟩

theorem boundsOfInput_min_fin (l : List CellContentInput) (hne : l ≠ [])
    (hgood : ∀ c ∈ l, goodRect c) :
    (∃ q, (boundsOfInput l).minX = fin q) ∧ (∃ q, (boundsOfInput l).minY = fin q) := by
  rw [boundsOfInput]
  apply computeBounds_min_fin
  · simp [hne]
  · intro b hb
    rw [List.mem_map] at hb
    obtain ⟨c, hc, rfl⟩ := hb
    obtain ⟨⟨qx, hx⟩, ⟨qy, hy⟩, h1, h2⟩ := hgood c hc
    exact ⟨⟨qx, hx⟩, ⟨qy, hy⟩⟩

/-- **C3 (amended).** The full output of `calculateCellBoundaries` is not
invariant under permuting the input (see the counterexample); what the
region-growth pipeline does preserve is the geometry of the midline stage:
for finite rectangles of nonnegative width and height, permuting the input
permutes the multiset of midline geometries (orientation and endpoints,
ids forgotten) of the debug pipeline, the container bounds being
order-independent. -/
theorem c3_midline_geometry_perm_invariant (l₁ l₂ : List CellContentInput)
    (hperm : l₁.Perm l₂) (hgood : ∀ c ∈ l₁, goodRect c) :
    List.Perm (((calculateCellBoundariesDebug l₁ none none).midlines).map midlineGeom)
      (((calculateCellBoundariesDebug l₂ none none).midlines).map midlineGeom) := by
  by_cases hnil : l₁ = []
  · subst hnil
    have h2 : l₂ = [] := hperm.symm.eq_nil
    rw [h2]
  · have hB : boundsOfInput l₁ = boundsOfInput l₂ := by
      rw [boundsOfInput, boundsOfInput]
      exact computeBounds_perm _ _ (hperm.map _)
    rw [debug_midline_geoms, debug_midline_geoms, ← hB]
    apply List.Perm.map
    apply orderedPairs_flatMap_perm goodRect
    · intro a b hga hgb
      exact pairGeoms_symm _ _ a b hga hgb
    · exact hperm.map _
    · intro a ha
      rw [List.mem_map] at ha
      obtain ⟨c, hc, rfl⟩ := ha
      obtain ⟨hox, hoy⟩ := boundsOfInput_min_fin l₁ hnil hgood
      exact goodRect_offset _ _ hox hoy c (hgood c hc)

/-- C3 (counterexample): for three pairwise non-overlapping rectangles,
reordering the input changes the output segment set — the segment
(275,225)-(400,225) is produced for one input order and absent for the
other. -/
theorem c3_counterexample_order_dependent_output :
    List.Perm
      [(⟨jq 150, jq 100, jq 250, jq 200⟩ : RectInput),
       ⟨jq 250, jq 250, jq 350, jq 350⟩, ⟨jq 300, jq 50, jq 400, jq 150⟩]
      [(⟨jq 250, jq 250, jq 350, jq 350⟩ : RectInput),
       ⟨jq 150, jq 100, jq 250, jq 200⟩, ⟨jq 300, jq 50, jq 400, jq 150⟩] ∧
    List.Pairwise (fun a b : RectInput =>
        rectsOverlap
          ⟨CellId.cell 0, a.minX, a.minY, jsSub a.maxX a.minX, jsSub a.maxY a.minY⟩
          ⟨CellId.cell 0, b.minX, b.minY, jsSub b.maxX b.minX, jsSub b.maxY b.minY⟩ = false ∧
        rectsOverlap
          ⟨CellId.cell 0, b.minX, b.minY, jsSub b.maxX b.minX, jsSub b.maxY b.minY⟩
          ⟨CellId.cell 0, a.minX, a.minY, jsSub a.maxX a.minX, jsSub a.maxY a.minY⟩ = false)
      [(⟨jq 150, jq 100, jq 250, jq 200⟩ : RectInput),
       ⟨jq 250, jq 250, jq 350, jq 350⟩, ⟨jq 300, jq 50, jq 400, jq 150⟩] ∧
    OutLine.mk ⟨jq 275, jq 225⟩ ⟨jq 400, jq 225⟩ ∈
      calculateCellBoundaries
        [⟨jq 150, jq 100, jq 250, jq 200⟩, ⟨jq 250, jq 250, jq 350, jq 350⟩,
         ⟨jq 300, jq 50, jq 400, jq 150⟩] ∧
    OutLine.mk ⟨jq 275, jq 225⟩ ⟨jq 400, jq 225⟩ ∉
      calculateCellBoundaries
        [⟨jq 250, jq 250, jq 350, jq 350⟩, ⟨jq 150, jq 100, jq 250, jq 200⟩,
         ⟨jq 300, jq 50, jq 400, jq 150⟩] := by
  decide

/-- C3 (witness): the amended invariance theorem applied to a concrete
two-rectangle input and its transposition. -/
theorem c3_witness :
    List.Perm
      (((calculateCellBoundariesDebug
        [(⟨jq 0, jq 0, jq 100, jq 100⟩ : CellContentInput), ⟨jq 200, jq 0, jq 100, jq 100⟩]
        none none).midlines).map midlineGeom)
      (((calculateCellBoundariesDebug
        [(⟨jq 200, jq 0, jq 100, jq 100⟩ : CellContentInput), ⟨jq 0, jq 0, jq 100, jq 100⟩]
        none none).midlines).map midlineGeom) :=
  c3_midline_geometry_perm_invariant
    [⟨jq 0, jq 0, jq 100, jq 100⟩, ⟨jq 200, jq 0, jq 100, jq 100⟩]
    [⟨jq 200, jq 0, jq 100, jq 100⟩, ⟨jq 0, jq 0, jq 100, jq 100⟩]
    (List.Perm.swap (⟨jq 200, jq 0, jq 100, jq 100⟩ : CellContentInput)
      (⟨jq 0, jq 0, jq 100, jq 100⟩ : CellContentInput) [])
    (by
      intro c hc
      rcases List.mem_cons.mp hc with rfl | hc
      · exact ⟨⟨0, rfl⟩, ⟨0, rfl⟩, ⟨100, rfl, by norm_num⟩, ⟨100, rfl, by norm_num⟩⟩
      · rcases List.mem_singleton.mp hc with rfl
        exact ⟨⟨200, rfl⟩, ⟨0, rfl⟩, ⟨100, rfl, by norm_num⟩, ⟨100, rfl, by norm_num⟩⟩)

